import Mathlib

/-!
Verification of the plan-graph engine of the `northstar` profile visualizer.

Shallow embedding conventions:
* JavaScript numbers are modelled as exact rationals (`ℚ`); the claims under
  scrutiny never depend on binary floating-point rounding at the magnitudes
  involved.
* JavaScript strings are Lean `String`s; character-level work happens on
  `List Char`.
* A missing / `undefined` value is `Option.none`; JavaScript string
  truthiness (`undefined`, `null`, `""` are falsy) is modelled by `jsTruthy`.
* Fallible parsing returns `Option`; `parseFloat` returning `NaN` is
  modelled as `none`.
* Regular-expression matching in the source is embedded by direct scanners
  implementing the same leftmost-match, greedy-with-backtracking semantics
  for the concrete patterns that appear in the code.
-/

set_option allowUnsafeReducibility true in
attribute [semireducible] Rat.inv Rat.mul Rat.add Rat.sub Rat.ofScientific

namespace Northstar

/-! ## Character classes and basic string utilities (JS semantics) -/

/-- JS `\s` (whitespace) restricted to the ASCII range, which is all the
profile strings and filter queries use. -/
def jsIsSpace (c : Char) : Bool :=
  c = ' ' ∨ c = '\t' ∨ c = '\n' ∨ c = '\r' ∨ c = '\x0b' ∨ c = '\x0c'

/-- JS `\w` word character: `[A-Za-z0-9_]`. -/
def isWordChar (c : Char) : Bool :=
  c.isAlpha ∨ c.isDigit ∨ c = '_'

/-- `sub.isPrefixOf t` for some tail `t` of `hay`: JS `String.includes`. -/
def containsSub (hay sub : List Char) : Bool :=
  hay.tails.any (fun t => sub.isPrefixOf t)

/-- JS `String.prototype.includes`. -/
def jsIncludes (s sub : String) : Bool :=
  containsSub s.data sub.data

/-- JS `String.prototype.trim` (ASCII whitespace). -/
def jsTrimL (cs : List Char) : List Char :=
  ((cs.dropWhile jsIsSpace).reverse.dropWhile jsIsSpace).reverse

/-- JS `String.prototype.trim` on `String`. -/
def jsTrim (s : String) : String :=
  ⟨jsTrimL s.data⟩

/-- JS truthiness of a possibly-absent string: `undefined` and `""` are
falsy, every other string is truthy. -/
def jsTruthy : Option String → Bool
  | some s => !(s == "")
  | none => false

/-- JS `a || b` for a possibly-absent string `a` with default `b`. -/
def jsOr (a : Option String) (b : String) : String :=
  if jsTruthy a then a.getD b else b

/-- `String.prototype.toLowerCase` (ASCII), as a kernel-reducible map. -/
def strLower (s : String) : String :=
  ⟨s.data.map Char.toLower⟩

/-- `String.prototype.toUpperCase` (ASCII), as a kernel-reducible map. -/
def strUpper (s : String) : String :=
  ⟨s.data.map Char.toUpper⟩

/-! ## Number parsing and formatting -/

/-- Value of a digit run (most significant first). -/
def digitsVal (ds : List Char) : ℕ :=
  ds.foldl (fun a c => a * 10 + (c.toNat - 48)) 0

/-- JS `parseFloat`: skip leading whitespace, optional sign, decimal
digits with optional fraction and optional exponent; `none` models `NaN`
(no digits at all).  The `Infinity` literal never occurs in profile data
and is not modelled. -/
def parseFloatQ (s : List Char) : Option ℚ :=
  let s1 := s.dropWhile jsIsSpace
  let sgn : ℚ := match s1 with
    | '-' :: _ => -1
    | _ => 1
  let s2 := match s1 with
    | '-' :: r => r
    | '+' :: r => r
    | _ => s1
  let ip := s2.takeWhile Char.isDigit
  let s3 := s2.dropWhile Char.isDigit
  let fp := match s3 with
    | '.' :: r => r.takeWhile Char.isDigit
    | _ => []
  let s4 := match s3 with
    | '.' :: r => r.dropWhile Char.isDigit
    | _ => s3
  if ip.isEmpty && fp.isEmpty then none
  else
    let mant : ℚ := (digitsVal ip : ℚ) + (digitsVal fp : ℚ) / (10 : ℚ) ^ fp.length
    let expo : ℤ := match s4 with
      | 'e' :: '-' :: d => if (d.takeWhile Char.isDigit).isEmpty then 0
          else -(digitsVal (d.takeWhile Char.isDigit) : ℤ)
      | 'E' :: '-' :: d => if (d.takeWhile Char.isDigit).isEmpty then 0
          else -(digitsVal (d.takeWhile Char.isDigit) : ℤ)
      | 'e' :: '+' :: d => if (d.takeWhile Char.isDigit).isEmpty then 0
          else (digitsVal (d.takeWhile Char.isDigit) : ℤ)
      | 'E' :: '+' :: d => if (d.takeWhile Char.isDigit).isEmpty then 0
          else (digitsVal (d.takeWhile Char.isDigit) : ℤ)
      | 'e' :: d => if (d.takeWhile Char.isDigit).isEmpty then 0
          else (digitsVal (d.takeWhile Char.isDigit) : ℤ)
      | 'E' :: d => if (d.takeWhile Char.isDigit).isEmpty then 0
          else (digitsVal (d.takeWhile Char.isDigit) : ℤ)
      | _ => 0
    some (sgn * mant * (10 : ℚ) ^ expo)

/-- `parseFloat` on `String`. -/
def parseFloatS (s : String) : Option ℚ := parseFloatQ s.data

/-- JS `Number.prototype.toFixed(d)`: round to `d` decimal digits,
half towards the larger integer (ECMA-262 picks the larger candidate on
ties). -/
def jsToFixed (q : ℚ) (d : ℕ) : String :=
  let n : ℤ := ⌊q * (10 : ℚ) ^ d + 1 / 2⌋
  let sgn := if n < 0 then "-" else ""
  let m := n.natAbs
  if d = 0 then sgn ++ Nat.repr m
  else
    let ip := m / 10 ^ d
    let fpart := m % 10 ^ d
    let fs := Nat.repr fpart
    let pad : List Char := List.replicate (d - fs.length) '0'
    sgn ++ Nat.repr ip ++ "." ++ (⟨pad⟩ : String) ++ fs

/-! ### `utils.js` parse/format pair (seconds domain) -/

/-- Leftmost match of `/\((\d+)\)/`: a parenthesised exact integer. -/
def parenSearch : List Char → Option ℕ
  | [] => none
  | '(' :: rest =>
      let ds := rest.takeWhile Char.isDigit
      if ds.isEmpty then parenSearch rest
      else match rest.drop ds.length with
        | ')' :: _ => some (digitsVal ds)
        | _ => parenSearch rest
  | _ :: rest => parenSearch rest

/-- Try the unit alternatives in order; each must be followed by a JS word
boundary.  Returns the unit's multiplier. -/
def unitAt (units : List (String × ℚ)) (cs : List Char) (lower : Bool) : Option ℚ :=
  units.findSome? (fun u =>
    let key := if lower then (strLower u.1).data else (strUpper u.1).data
    let probe := if lower then (cs.take key.length).map Char.toLower
      else (cs.take key.length).map Char.toUpper
    if probe = key then
      match cs.drop key.length with
      | [] => some u.2
      | c :: _ => if isWordChar c then none else some u.2
    else none)

/-- Byte units, checked longest first as in the source. -/
def byteUnits : List (String × ℚ) :=
  [("TB", 1024 ^ 4), ("GB", 1024 ^ 3), ("MB", 1024 ^ 2), ("KB", 1024), ("B", 1)]

/-- Time units of `utils.js` (multipliers in seconds). -/
def timeUnits : List (String × ℚ) :=
  [("ns", 1 / 1000000000), ("us", 1 / 1000000), ("ms", 1 / 1000),
   ("s", 1), ("m", 60), ("h", 3600)]

/-- Leftmost match of `/([\d.]+)\s*(UNITS)\b/`: returns the numeric capture
parsed with `parseFloat` times the unit multiplier.  A capture that
`parseFloat` cannot digest (e.g. `".."`) yields `NaN` in JS; that
degenerate case is modelled as `0` and never occurs in profile data. -/
def numUnitSearch (units : List (String × ℚ)) (lower : Bool) : List Char → Option ℚ
  | [] => none
  | c :: rest =>
      if c.isDigit ∨ c = '.' then
        let run := (c :: rest).takeWhile (fun x => x.isDigit ∨ x = '.')
        let after := ((c :: rest).drop run.length).dropWhile jsIsSpace
        match unitAt units after lower with
        | some mult => some ((parseFloatQ run).getD 0 * mult)
        | none => numUnitSearch units lower rest
      else numUnitSearch units lower rest

/-- Leftmost match of `/(\d+)s(\d+)ms/i`: compound seconds+milliseconds. -/
def compoundSearch : List Char → Option (ℕ × ℕ)
  | [] => none
  | c :: rest =>
      (if c.isDigit then
        let d1 := (c :: rest).takeWhile Char.isDigit
        match (c :: rest).drop d1.length with
        | s :: r1 =>
            if s = 's' ∨ s = 'S' then
              let d2 := r1.takeWhile Char.isDigit
              if d2.isEmpty then none
              else match r1.drop d2.length with
                | m :: s2 :: _ =>
                    if (m = 'm' ∨ m = 'M') ∧ (s2 = 's' ∨ s2 = 'S') then
                      some (digitsVal d1, digitsVal d2)
                    else none
                | _ => none
            else none
        | [] => none
      else none).orElse (fun _ => compoundSearch rest)

/-- `parseNumericValue` of `utils.js`: parse strings such as
`"18.636 KB"`, `"1.592ms"`, `"3.336K (3336)"` into plain numbers
(seconds for time units, bytes for byte units). -/
def parseNumericValue (s : String) : ℚ :=
  if s = "" ∨ s = "-" ∨ s = "N/A" then 0
  else
    let str := jsTrim s
    match parenSearch str.data with
    | some n => (n : ℚ)
    | none =>
      match numUnitSearch byteUnits false str.data with
      | some v => v
      | none =>
        match compoundSearch str.data with
        | some (sec, ms) => (sec : ℚ) + (ms : ℚ) / 1000
        | none =>
          match numUnitSearch timeUnits true str.data with
          | some v => v
          | none => (parseFloatQ (str.data.filter (fun c => c ≠ ','))).getD 0

/-- `formatTime` of `utils.js`: seconds to a human-readable string with the
shortest unit, two decimal digits (zero digits for nanoseconds). -/
def formatTime (seconds : ℚ) : String :=
  if seconds = 0 then "0ns"
  else
    let ns := seconds * 1000000000
    if ns ≥ 3600 * 1000000000 then jsToFixed (ns / (3600 * 1000000000)) 2 ++ "h"
    else if ns ≥ 60 * 1000000000 then jsToFixed (ns / (60 * 1000000000)) 2 ++ "m"
    else if ns ≥ 1000000000 then jsToFixed (ns / 1000000000) 2 ++ "s"
    else if ns ≥ 1000000 then jsToFixed (ns / 1000000) 2 ++ "ms"
    else if ns ≥ 1000 then jsToFixed (ns / 1000) 2 ++ "us"
    else jsToFixed ns 0 ++ "ns"

/-! ### `visualizer.js` time parse/format pair (microseconds domain) -/

/-- `parseTimeToMicroseconds` of `visualizer.js`. -/
def parseTimeToMicroseconds (timeStr : String) : ℚ :=
  if timeStr = "" ∨ timeStr = "N/A" then 0
  else
    let str := strLower timeStr
    match parseFloatS str with
    | none => 0
    | some value =>
      if jsIncludes str "ms" then value * 1000
      else if jsIncludes str "us" then value
      else if jsIncludes str "ns" then value / 1000
      else if jsIncludes str "s" && !jsIncludes str "us" && !jsIncludes str "ns"
          && !jsIncludes str "ms" then value * 1000000
      else value

/-- `formatMicroseconds` of `visualizer.js`. -/
def formatMicroseconds (us : ℚ) : String :=
  if us ≥ 1000000 then jsToFixed (us / 1000000) 2 ++ "s"
  else if us ≥ 1000 then jsToFixed (us / 1000) 2 ++ "ms"
  else if us ≥ 1 then jsToFixed us 2 ++ "us"
  else jsToFixed (us * 1000) 0 ++ "ns"

/-! ## Metric data model -/

/-- One physical operator instance as stored by `extractMetricsByPlanNodeId`:
the operator name plus its metrics object's `CommonMetrics` and
`UniqueMetrics` maps (an absent map is the empty list, matching the
source's `|| {}` defaulting). -/
structure OpInstance where
  operatorName : String
  common : List (String × String)
  unique : List (String × String)
  deriving DecidableEq, Repr

/-- Aggregated per-plan-node record: `{ instances: [...] }`. -/
structure NodeMetricsRec where
  instances : List OpInstance
  deriving DecidableEq, Repr

/-- Property access on a JS metrics object: first binding wins. -/
def smGet (m : List (String × String)) (k : String) : Option String :=
  (m.find? (fun p => p.1 == k)).map (·.2)

/-- A node of the plan graph as built by `renderFromTopology`. -/
structure GNode where
  id : Int
  name : String
  children : List Int
  metrics : Option NodeMetricsRec
  deriving DecidableEq, Repr

/-- The graph in object-iteration order (the order `Object.entries` yields). -/
abbrev Graph := List GNode

/-- `graph[id]` lookup. -/
def graphGet (g : Graph) (id : Int) : Option GNode :=
  g.find? (fun n => n.id == id)

/-! ## `extractMetricsByPlanNodeId` -/

/-- The metrics value attached to an operator key:
`(CommonMetrics, UniqueMetrics)`. -/
abbrev OpMetricsVal := List (String × String) × List (String × String)

/-- Match of the tail of the operator-key regex
`/(.+) \(plan_node_id=(-?\d+)\)/` after the `(.+)` capture: literal
`" (plan_node_id="`, an optional minus sign, one or more digits, `")"`. -/
def planNodeIdTail (cs : List Char) : Option Int :=
  let pat := (" (plan_node_id=" : String).data
  if pat.isPrefixOf cs then
    let r := cs.drop pat.length
    let neg : Bool := match r with
      | '-' :: _ => true
      | _ => false
    let r2 := match r with
      | '-' :: t => t
      | _ => r
    let ds := r2.takeWhile Char.isDigit
    if ds.isEmpty then none
    else match r2.drop ds.length with
      | ')' :: _ => some (if neg then -(digitsVal ds : Int) else (digitsVal ds : Int))
      | _ => none
  else none

/-- Full match of `/(.+) \(plan_node_id=(-?\d+)\)/`: the greedy `(.+)`
capture takes the longest prefix that leaves a valid tail, so the last
valid `" (plan_node_id=...)"` occurrence wins. -/
def opKeyMatch (key : String) : Option (String × Int) :=
  let cs := key.data
  let cands := (List.range (cs.length + 1)).filterMap (fun k =>
    if 1 ≤ k then (planNodeIdTail (cs.drop k)).map (fun i => (k, i)) else none)
  cands.getLast?.map (fun p => ((⟨cs.take p.1⟩ : String), p.2))

/-- Unanchored match of `/Pipeline \(id=(\d+)\)/` against a pipeline key. -/
def pipeKeyOk (key : String) : Bool :=
  key.data.tails.any (fun t =>
    let pat := ("Pipeline (id=" : String).data
    if pat.isPrefixOf t then
      let r := t.drop pat.length
      let ds := r.takeWhile Char.isDigit
      if ds.isEmpty then false
      else match r.drop ds.length with
        | ')' :: _ => true
        | _ => false
    else false)

/-- Append an instance to a plan node's record, creating the record on
first sight (JS `metricsMap[planNodeId]` get-or-create plus `push`). -/
def mmPush (m : List (Int × NodeMetricsRec)) (id : Int) (inst : OpInstance) :
    List (Int × NodeMetricsRec) :=
  match m with
  | [] => [(id, ⟨[inst]⟩)]
  | (k, r) :: rest =>
      if k = id then (k, ⟨r.instances ++ [inst]⟩) :: rest
      else (k, r) :: mmPush rest id inst

/-- Association-list lookup in the metrics map. -/
def mmGet (m : List (Int × NodeMetricsRec)) (id : Int) : Option NodeMetricsRec :=
  (m.find? (fun p => p.1 == id)).map (·.2)

/-- `extractMetricsByPlanNodeId` of `visualizer.js`: walk
`Fragment → Pipeline → operator` keys, parse each operator key's plan-node
id (negative ids allowed) and collect instances per node in discovery
order. -/
def extractMetricsByPlanNodeId
    (execution : List (String × List (String × List (String × OpMetricsVal)))) :
    List (Int × NodeMetricsRec) :=
  execution.foldl (fun m frag =>
    if ("Fragment " : String).data.isPrefixOf frag.1.data then
      frag.2.foldl (fun m pipe =>
        if pipeKeyOk pipe.1 then
          pipe.2.foldl (fun m op =>
            match opKeyMatch op.1 with
            | some (opName, planNodeId) =>
                mmPush m planNodeId ⟨opName, op.2.1, op.2.2⟩
            | none => m) m
        else m) m
    else m) []

/-! ## Derived scan view (`getScanMetrics`) -/

/-- The scan detail view returned by `getScanMetrics`. -/
structure ScanView where
  operatorTotalTime : String
  pullRowNum : String
  table : String
  bytesRead : String
  rowsRead : String
  rawRowsRead : String
  scanTime : String
  tabletCount : String
  deriving DecidableEq, Repr

/-- Is the instance one of the primary scan operators? -/
def isPrimaryScanName (i : OpInstance) : Bool :=
  i.operatorName == "OLAP_SCAN" || i.operatorName == "CONNECTOR_SCAN"

/-- Does the (upper-cased) instance name contain `"SCAN"`? -/
def isScanishName (i : OpInstance) : Bool :=
  containsSub (strUpper i.operatorName).data ("SCAN" : String).data

/-- Build the scan view fields from the chosen instance. -/
def scanViewOf (i : OpInstance) : ScanView :=
  { operatorTotalTime := jsOr (smGet i.common "OperatorTotalTime") "N/A"
    pullRowNum := jsOr (smGet i.common "PullRowNum") "0"
    table := jsOr (smGet i.unique "Table") (jsOr (smGet i.unique "Rollup") "N/A")
    bytesRead := jsOr (smGet i.unique "BytesRead") "0 B"
    rowsRead := jsOr (smGet i.unique "RowsRead") "0"
    rawRowsRead := jsOr (smGet i.unique "RawRowsRead") "0"
    scanTime := jsOr (smGet i.unique "ScanTime") "0ns"
    tabletCount := jsOr (smGet i.unique "TabletCount") "0" }

/-- The instance-selection cascade of `getScanMetrics`: the first exact
primary scan operator (`OLAP_SCAN` / `CONNECTOR_SCAN`), else the first
instance whose name contains `SCAN`, else the first instance; `none` only
when there are no instances. -/
def chooseScanInstance (md : NodeMetricsRec) : Option OpInstance :=
  match md.instances with
  | [] => none
  | first :: _ =>
    match md.instances.find? isPrimaryScanName with
    | some i => some i
    | none =>
      match md.instances.find? isScanishName with
      | some i => some i
      | none => some first

/-- `getScanMetrics` of `visualizer.js`: choose the instance by the
three-level priority and project the scan view from it. -/
def getScanMetrics (metricsData : Option NodeMetricsRec) : Option ScanView :=
  match metricsData with
  | none => none
  | some md => (chooseScanInstance md).map scanViewOf

/-! ## Derived join view (`getJoinMetrics`) -/

/-- The join detail view returned by `getJoinMetrics`. -/
structure JoinView where
  joinType : String
  distributionMode : String
  joinPredicates : String
  buildTime : String
  probeTime : String
  totalJoinTime : String
  buildHashTableTime : String
  searchHashTableTime : String
  hashTableMemory : String
  pullRowNum : String
  buildRows : String
  deriving DecidableEq, Repr

/-- The probe/build assignment loop of `getJoinMetrics`: every instance
whose upper-cased name contains `JOIN_PROBE` overwrites the probe slot,
else one containing `JOIN_BUILD` overwrites the build slot (last match
wins). -/
def findJoinInstances (insts : List OpInstance) :
    Option OpInstance × Option OpInstance :=
  insts.foldl (fun pb i =>
    if containsSub (strUpper i.operatorName).data ("JOIN_PROBE" : String).data then
      (some i, pb.2)
    else if containsSub (strUpper i.operatorName).data ("JOIN_BUILD" : String).data then
      (pb.1, some i)
    else pb) (none, none)

/-- `probeInstance?.CommonMetrics || {}` followed by
`.OperatorTotalTime || 'N/A'`. -/
def joinSlotTime (slot : Option OpInstance) : String :=
  jsOr (slot.bind (fun i => smGet i.common "OperatorTotalTime")) "N/A"

/-- The `totalUs = buildUs + probeUs` computation inside `getJoinMetrics`. -/
def joinTotalUs (md : NodeMetricsRec) : ℚ :=
  parseTimeToMicroseconds (joinSlotTime (findJoinInstances md.instances).2)
    + parseTimeToMicroseconds (joinSlotTime (findJoinInstances md.instances).1)

/-- `getJoinMetrics` of `visualizer.js`. -/
def getJoinMetrics (metricsData : Option NodeMetricsRec) : Option JoinView :=
  match metricsData with
  | none => none
  | some md =>
    if md.instances.isEmpty then none
    else
      let pb := findJoinInstances md.instances
      match pb with
      | (none, none) => none
      | _ =>
        let probeCommon := fun k => (pb.1).bind (fun i => smGet i.common k)
        let probeUnique := fun k => (pb.1).bind (fun i => smGet i.unique k)
        let buildCommon := fun k => (pb.2).bind (fun i => smGet i.common k)
        let buildUnique := fun k => (pb.2).bind (fun i => smGet i.unique k)
        let totalUs := joinTotalUs md
        some
          { joinType := jsOr (probeUnique "JoinType") (jsOr (buildUnique "JoinType") "N/A")
            distributionMode := jsOr (probeUnique "DistributionMode")
              (jsOr (buildUnique "DistributionMode") "N/A")
            joinPredicates := jsOr (buildUnique "JoinPredicates") "N/A"
            buildTime := jsOr (buildCommon "OperatorTotalTime") "N/A"
            probeTime := jsOr (probeCommon "OperatorTotalTime") "N/A"
            totalJoinTime := if totalUs > 0 then formatMicroseconds totalUs else "N/A"
            buildHashTableTime := jsOr (buildUnique "BuildHashTableTime") "N/A"
            searchHashTableTime := jsOr (probeUnique "SearchHashTableTime") "N/A"
            hashTableMemory := jsOr (buildUnique "HashTableMemoryUsage") "N/A"
            pullRowNum := jsOr (probeCommon "PullRowNum") "0"
            buildRows := jsOr (buildCommon "PushRowNum") "0" }

/-! ## Node total time (`getNodeTotalTime`) and operator ranking -/

/-- One loop iteration's contribution to `totalUs` in `getNodeTotalTime`:
`OperatorTotalTime` for every operator, plus `ScanTime` for operators whose
upper-cased name contains `SCAN`, plus `NetworkTime` for `EXCHANGE_SINK`. -/
def instContribUs (inst : OpInstance) : ℚ :=
  let opName := strUpper inst.operatorName
  let ott := smGet inst.common "OperatorTotalTime"
  let scanT := smGet inst.unique "ScanTime"
  let netT := smGet inst.unique "NetworkTime"
  (if jsTruthy ott then parseTimeToMicroseconds (ott.getD "") else 0)
  + (if containsSub opName.data ("SCAN" : String).data ∧ jsTruthy scanT then
      parseTimeToMicroseconds (scanT.getD "") else 0)
  + (if opName = "EXCHANGE_SINK" ∧ jsTruthy netT then
      parseTimeToMicroseconds (netT.getD "") else 0)

/-- The `totalUs` accumulation loop of `getNodeTotalTime`. -/
def nodeTotalUs (md : NodeMetricsRec) : ℚ :=
  md.instances.foldl (fun acc i => acc + instContribUs i) 0

/-- `getNodeTotalTime` of `visualizer.js`: sum the contributions over all
instances and format, or `null` when there is no data or the sum is not
positive. -/
def getNodeTotalTime (metricsData : Option NodeMetricsRec) : Option String :=
  match metricsData with
  | none => none
  | some md =>
    if md.instances.isEmpty then none
    else
      let totalUs := nodeTotalUs md
      if totalUs > 0 then some (formatMicroseconds totalUs) else none

/-- The derived total time of a node in microseconds: the value the ranking
sorts by (`parseTimeToMicroseconds` of `getNodeTotalTime`'s string, `0`
when `getNodeTotalTime` yields `null`). -/
def nodeDerivedTimeUs (node : GNode) : ℚ :=
  match getNodeTotalTime node.metrics with
  | some s => parseTimeToMicroseconds s
  | none => 0

/-- One row of the slowest-operators ranking. -/
structure RankEntry where
  id : Int
  name : String
  timeStr : String
  timeMicros : ℚ
  deriving DecidableEq, Repr

/-- The collection loop of `calculateOperatorRankings`: skip nodes without
metrics, without a total-time string, or whose parsed time is not
positive. -/
def rankCandidates (graph : Graph) : List RankEntry :=
  graph.filterMap (fun node =>
    match node.metrics with
    | none => none
    | some md =>
      match getNodeTotalTime (some md) with
      | none => none
      | some timeStr =>
        let timeMicros := parseTimeToMicroseconds timeStr
        if timeMicros > 0 then some ⟨node.id, node.name, timeStr, timeMicros⟩
        else none)

/-- Stable insertion of an entry into a descending-sorted list: the entry
goes before the first element with a smaller-or-equal key, i.e. after all
earlier elements with the same key. -/
def insertDesc (x : RankEntry) : List RankEntry → List RankEntry
  | [] => [x]
  | y :: ys =>
      if y.timeMicros ≤ x.timeMicros then x :: y :: ys
      else y :: insertDesc x ys

/-- `calculateOperatorRankings` of `visualizer.js`:
`operators.sort((a, b) => b.timeMicros - a.timeMicros)`.  JS `sort` is
stable (ES2019), and a stable sort of a list under a total preorder is
unique, so the stable insertion sort below is extensionally the same
function. -/
def calculateOperatorRankings (graph : Graph) : List RankEntry :=
  (rankCandidates graph).foldr insertDesc []

/-! ## Operator classification -/

/-- `getNodeClass` of `visualizer.js`. -/
def getNodeClass (name : String) : String :=
  let n := strUpper name
  if containsSub n.data ("SCAN" : String).data then "scan"
  else if containsSub n.data ("JOIN" : String).data then "join"
  else if containsSub n.data ("EXCHANGE" : String).data
      ∨ containsSub n.data ("MERGE" : String).data then "exchange"
  else if containsSub n.data ("PROJECT" : String).data
      ∨ containsSub n.data ("LIMIT" : String).data
      ∨ containsSub n.data ("TOP_N" : String).data then "project"
  else if containsSub n.data ("AGGREGATE" : String).data
      ∨ containsSub n.data ("AGG" : String).data then "aggregate"
  else if containsSub n.data ("UNION" : String).data then "union"
  else if containsSub n.data ("SORT" : String).data then "project"
  else ""

/-- `isScanOperator` of `visualizer.js`. -/
def isScanOperator (name : String) : Bool :=
  containsSub (strUpper name).data ("SCAN" : String).data

/-! ## Filter query language: selectors -/

/-- A parsed `node=` selector. -/
structure NodeSel where
  nodeId : Int
  upstream : Bool
  downstream : Bool
  deriving DecidableEq, Repr

/-- A parsed selector of any kind. -/
inductive Selector where
  | node (sel : NodeSel)
  | type (typeFilter : String)
  | table (tableFilter : String)
  deriving DecidableEq, Repr

/-- Match `/^type=(\w+)$/i`. -/
def matchTypeSel (cs : List Char) : Option String :=
  if (cs.take 5).map Char.toLower = ("type=" : String).data then
    let rest := cs.drop 5
    if rest ≠ [] ∧ rest.all isWordChar then some (⟨rest⟩ : String) else none
  else none

/-- Match `/^table=(.+)$/i` (`.` excludes line terminators). -/
def matchTableSel (cs : List Char) : Option String :=
  if (cs.take 6).map Char.toLower = ("table=" : String).data then
    let rest := cs.drop 6
    if rest ≠ [] ∧ rest.all (fun c => ¬(c = '\n' ∨ c = '\r')) then
      some (⟨rest⟩ : String)
    else none
  else none

/-- Match `/^(\+)?node=(\d+)(\+)?$/i`. -/
def matchNodeSel (cs : List Char) : Option (Int × Bool × Bool) :=
  let up : Bool := match cs with
    | '+' :: _ => true
    | _ => false
  let r1 := match cs with
    | '+' :: t => t
    | _ => cs
  if (r1.take 5).map Char.toLower = ("node=" : String).data then
    let rest := r1.drop 5
    let ds := rest.takeWhile Char.isDigit
    if ds.isEmpty then none
    else match rest.drop ds.length with
      | [] => some ((digitsVal ds : Int), up, false)
      | ['+'] => some ((digitsVal ds : Int), up, true)
      | _ => none
  else none

/-- The valid operator classes accepted by `type=`. -/
def validTypes : List String :=
  ["scan", "join", "exchange", "aggregate", "project", "union"]

/-- `parseSelector` of `visualizer.js`: try the type, table and node
patterns in that order; an invalid match of an earlier pattern yields
`null` without falling through. -/
def parseSelector (part : String) : Option Selector :=
  match matchTypeSel part.data with
  | some cap =>
      let ty := strLower cap
      if validTypes.contains ty then some (.type ty) else none
  | none =>
    match matchTableSel part.data with
    | some cap =>
        let tableName := jsTrim cap
        if tableName ≠ "" then some (.table (strLower tableName)) else none
    | none =>
      match matchNodeSel part.data with
      | some (nodeId, up, down) =>
          if 0 ≤ nodeId then some (.node ⟨nodeId, up, down⟩) else none
      | none => none

/-! ## Filter query language: the OR/AND split -/

/-- Attempt to match the separator regex `\s*(?:SYM|\bWORD\b)\s*` at the
head of `cs` with exactly `k` leading whitespace characters consumed.
`prevNonWord` says whether the character before `cs` (in the full string)
is absent or not a word character, for the left word boundary when
`k = 0`. -/
def sepAttempt (word : List Char) (sym : Char) (prevNonWord : Bool)
    (cs : List Char) (k : ℕ) : Option ℕ :=
  match cs.drop k with
  | [] => none
  | c :: r =>
      if c = sym then some (k + 1 + (r.takeWhile jsIsSpace).length)
      else
        let rest := c :: r
        let wordOk := (rest.take word.length).map Char.toLower == word
        let leftOk := decide (k ≠ 0) || prevNonWord
        let rightOk : Bool := match rest.drop word.length with
          | [] => true
          | c2 :: _ => ! isWordChar c2
        if wordOk && leftOk && rightOk then
          some (k + word.length + ((rest.drop word.length).takeWhile jsIsSpace).length)
        else none

/-- Backtracking over the greedy leading `\s*`: try the longest run of
whitespace first, shrinking until the core (symbol or word) matches. -/
def sepDown (word : List Char) (sym : Char) (prevNonWord : Bool)
    (cs : List Char) : ℕ → Option ℕ
  | 0 => sepAttempt word sym prevNonWord cs 0
  | k + 1 =>
      (sepAttempt word sym prevNonWord cs (k + 1)).orElse
        (fun _ => sepDown word sym prevNonWord cs k)

/-- Leftmost separator match at the current position, if any. -/
def sepMatchAt (word : List Char) (sym : Char) (prevNonWord : Bool)
    (cs : List Char) : Option ℕ :=
  sepDown word sym prevNonWord cs (cs.takeWhile jsIsSpace).length

/-- The splitting walk of `String.prototype.split(regex)`: scan left to
right, emit the accumulated token at each separator match.  `fuel` bounds
the number of steps; every step consumes at least one character, so
`fuel = length` never runs out. -/
def splitGo (word : List Char) (sym : Char) :
    ℕ → Option Char → List Char → List Char → List (List Char)
  | 0, _, cur, _ => [cur.reverse]
  | _ + 1, _, cur, [] => [cur.reverse]
  | fuel + 1, prev, cur, c :: rest =>
      let prevNonWord : Bool := match prev with
        | none => true
        | some p => ¬ isWordChar p
      match sepMatchAt word sym prevNonWord (c :: rest) with
      | some len =>
          let consumed := (c :: rest).take len
          cur.reverse :: splitGo word sym fuel consumed.getLast? [] ((c :: rest).drop len)
      | none => splitGo word sym fuel (some c) (c :: cur) rest

/-- JS `s.split(/\s*(?:SYM|\bWORD\b)\s*/i)`. -/
def jsSplitSeps (word : String) (sym : Char) (s : String) : List String :=
  (splitGo word.data sym s.data.length none [] s.data).map (fun l => (⟨l⟩ : String))

/-- Remove every occurrence of `sub` (JS `replace(/sub/g, '')`),
left to right, non-overlapping.  `fuel = length` suffices. -/
def removeAllAux (sub : List Char) : ℕ → List Char → List Char
  | 0, l => l
  | _ + 1, [] => []
  | fuel + 1, c :: rest =>
      if sub.isPrefixOf (c :: rest) then
        removeAllAux sub fuel ((c :: rest).drop sub.length)
      else c :: removeAllAux sub fuel rest

/-- Remove every occurrence of `sub` from `s`. -/
def removeAllSub (s sub : String) : String :=
  ⟨removeAllAux sub.data s.data.length s.data⟩

/-- One AND-group of a parsed filter query. -/
structure FilterGroup where
  nodeSelectors : List NodeSel
  typeFilters : List String
  tableFilters : List String
  deriving DecidableEq, Repr

/-- A parsed filter query. -/
structure FilterSpec where
  orGroups : List FilterGroup
  hideMode : Bool
  deriving DecidableEq, Repr

/-- `parseFilterQuery` of `visualizer.js`. -/
def parseFilterQuery (query : String) : FilterSpec :=
  if query = "" ∨ jsTrim query = "" then ⟨[], false⟩
  else
    let hideMode := jsIncludes query "--hide"
    let query1 := if hideMode then jsTrim (removeAllSub query "--hide") else query
    let orParts := (jsSplitSeps "or" ',' query1).filter (fun p => p ≠ "")
    let orGroups := orParts.foldl (fun acc orPart =>
      let andParts := (jsSplitSeps "and" '&' orPart).filter (fun p => p ≠ "")
      let group := andParts.foldl (fun (g : FilterGroup) part =>
        match parseSelector (jsTrim part) with
        | some (.node sel) => { g with nodeSelectors := g.nodeSelectors ++ [sel] }
        | some (.type t) => { g with typeFilters := g.typeFilters ++ [t] }
        | some (.table t) => { g with tableFilters := g.tableFilters ++ [t] }
        | none => g) ⟨[], [], []⟩
      if group.nodeSelectors ≠ [] ∨ group.typeFilters ≠ [] ∨ group.tableFilters ≠ []
      then acc ++ [group] else acc) []
    ⟨orGroups, hideMode⟩

/-! ## Graph traversal for node selectors -/

/-- The cached child-to-parent map. -/
abbrev ParentMap := List (Int × Int)

/-- JS `Map.set`: overwrite an existing key in place, else append. -/
def pmSet (m : ParentMap) (k v : Int) : ParentMap :=
  match m with
  | [] => [(k, v)]
  | (k0, v0) :: rest =>
      if k0 = k then (k, v) :: rest else (k0, v0) :: pmSet rest k v

/-- JS `Map.get`. -/
def pmGet (m : ParentMap) (k : Int) : Option Int :=
  (m.find? (fun p => p.1 == k)).map (·.2)

/-- The recursive `traverse` of `buildParentMap`, carrying the visited set
and the accumulated map.  `fuel` bounds recursion depth; every level of
descent adds a fresh id to the visited set, so `graph.length + 2`
suffices. -/
def bpmTraverse (g : Graph) : ℕ → List Int × ParentMap → Int → List Int × ParentMap
  | 0, st, _ => st
  | fuel + 1, st, nodeId =>
      if st.1.contains nodeId then st
      else
        let st := (nodeId :: st.1, st.2)
        match graphGet g nodeId with
        | none => st
        | some node =>
            node.children.foldl (fun st childId =>
              bpmTraverse g fuel (st.1, pmSet st.2 childId nodeId) childId) st

/-- `buildParentMap` of `visualizer.js`. -/
def buildParentMap (g : Graph) (rootId : Int) : ParentMap :=
  (bpmTraverse g (g.length + 2) ([], []) rootId).2

/-- The while-loop of `getUpstreamNodes`. -/
def upstreamGo (pm : ParentMap) : ℕ → Int → Finset Int → Finset Int
  | 0, _, acc => acc
  | fuel + 1, cur, acc =>
      match pmGet pm cur with
      | none => acc
      | some p => upstreamGo pm fuel p (insert p acc)

/-- `getUpstreamNodes` of `visualizer.js`: the node plus the chain of
parents.  The source's `while` loop terminates whenever the parent map is
acyclic; `fuel = pm.length + 1` steps reproduce it on such maps. -/
def getUpstreamNodes (nodeId : Int) (pm : ParentMap) : Finset Int :=
  upstreamGo pm (pm.length + 1) nodeId {nodeId}

/-- The BFS loop of `getDownstreamNodes`. -/
def downstreamGo (g : Graph) : ℕ → List Int → Finset Int → Finset Int
  | 0, _, acc => acc
  | _ + 1, [], acc => acc
  | fuel + 1, cur :: queue, acc =>
      if cur ∈ acc then downstreamGo g fuel queue acc
      else
        let acc := insert cur acc
        match graphGet g cur with
        | none => downstreamGo g fuel queue acc
        | some node => downstreamGo g fuel (queue ++ node.children) acc

/-- `getDownstreamNodes` of `visualizer.js`: breadth-first walk with a
visited set.  Each id is expanded at most once, so the iteration count is
bounded by `1 + graph.length + total child references`. -/
def getDownstreamNodes (nodeId : Int) (g : Graph) : Finset Int :=
  downstreamGo g (1 + g.length + (g.map (fun n => n.children.length)).sum) [nodeId] ∅

/-- `getNodesForSelector` of `visualizer.js` (the parent map is always
built before group evaluation). -/
def getNodesForSelector (g : Graph) (pm : ParentMap) (sel : NodeSel) : Finset Int :=
  if (graphGet g sel.nodeId).isNone then ∅
  else
    ({sel.nodeId} : Finset Int)
      ∪ (if sel.upstream then getUpstreamNodes sel.nodeId pm else ∅)
      ∪ (if sel.downstream then getDownstreamNodes sel.nodeId g else ∅)

/-- `getNodesForType` of `visualizer.js`. -/
def getNodesForType (g : Graph) (typeFilter : String) : Finset Int :=
  ((g.filter (fun n => getNodeClass n.name == typeFilter)).map (fun n => n.id)).toFinset

/-- `getNodesForTable` of `visualizer.js`: scan operators whose resolved
table name matches case-insensitively. -/
def getNodesForTable (g : Graph) (tableFilter : String) : Finset Int :=
  let searchTerm := strLower tableFilter
  ((g.filter (fun n =>
      isScanOperator n.name && n.metrics.isSome &&
      (match getScanMetrics n.metrics with
       | none => false
       | some sv =>
          !(sv.table == "") && !(sv.table == "N/A") && ((strLower sv.table) == searchTerm)))).map
    (fun n => n.id)).toFinset

/-! ## Filter evaluation (`applyFilter`) -/

/-- The per-AND-group intersection fold of `applyFilter`: node selectors,
then type filters, then table filters; `none` is the initial "no terms
yet" state. -/
def groupFold (g : Graph) (pm : ParentMap) (grp : FilterGroup) : Option (Finset Int) :=
  let s1 := grp.nodeSelectors.foldl (fun acc sel =>
    let sn := getNodesForSelector g pm sel
    match acc with
    | none => some sn
    | some t => some (t ∩ sn)) none
  let s2 := grp.typeFilters.foldl (fun acc t =>
    let tn := getNodesForType g t
    match acc with
    | none => some tn
    | some u => some (u ∩ tn)) s1
  grp.tableFilters.foldl (fun acc tf =>
    let tn := getNodesForTable g tf
    match acc with
    | none => some tn
    | some u => some (u ∩ tn)) s2

/-- The OR-group union fold of `applyFilter`. -/
def computeMatching (g : Graph) (pm : ParentMap) (groups : List FilterGroup) : Finset Int :=
  groups.foldl (fun acc grp =>
    match groupFold g pm grp with
    | none => acc
    | some s => acc ∪ s) ∅

/-- `applyFilter` of `visualizer.js`, restricted to its observable output:
the matching node-id set, or `none` for the reset-to-unfiltered path taken
when the parsed query has no OR-groups.  (The CSS class application the
source performs afterwards is presentation only.) -/
def applyFilter (g : Graph) (rootId : Int) (query : String) : Option (Finset Int) :=
  let spec := parseFilterQuery query
  if spec.orGroups.isEmpty then none
  else
    let pm := buildParentMap g rootId
    some (computeMatching g pm spec.orGroups)

/-! ## Viewport / camera -/

/-- The camera: world-space top-left corner and scale. -/
structure Camera where
  x : ℚ
  y : ℚ
  zoom : ℚ
  deriving DecidableEq, Repr

/-- Fixed environment of the camera operations: the canvas rectangle
(`planCanvas.getBoundingClientRect()`) and the laid-out content size. -/
structure ViewEnv where
  rectW : ℚ
  rectH : ℚ
  contentW : ℚ
  contentH : ℚ
  deriving DecidableEq, Repr

/-- `MIN_ZOOM` of `visualizer.js`. -/
def MIN_ZOOM : ℚ := 1 / 10

/-- `MAX_ZOOM` of `visualizer.js`. -/
def MAX_ZOOM : ℚ := 6

/-- `clampCameraToBounds` of `visualizer.js`. -/
def clampCameraToBounds (env : ViewEnv) (cam : Camera) : Camera :=
  if env.contentW = 0 ∨ env.contentH = 0 then cam
  else
    let viewportWidth := env.rectW / cam.zoom
    let viewportHeight := env.rectH / cam.zoom
    let marginX := max 0 ((viewportWidth - env.contentW) / 2)
    let marginY := max 0 ((viewportHeight - env.contentH) / 2)
    let overscroll : ℚ := 1 / 2
    let minX := -env.contentW * overscroll - marginX
    let maxX := env.contentW * (1 + overscroll) - viewportWidth + marginX
    let minY := -env.contentH * overscroll - marginY
    let maxY := env.contentH * (1 + overscroll) - viewportHeight + marginY
    { x := if maxX > minX then max minX (min maxX cam.x) else cam.x
      y := if maxY > minY then max minY (min maxY cam.y) else cam.y
      zoom := cam.zoom }

/-- `panBy` of `visualizer.js`. -/
def panBy (env : ViewEnv) (dx dy : ℚ) (cam : Camera) : Camera :=
  clampCameraToBounds env
    { x := cam.x - dx / cam.zoom, y := cam.y - dy / cam.zoom, zoom := cam.zoom }

/-- The anchor-preserving zoom shared by `handleWheel` and `zoomToCenter`:
record the world point under the screen point, clamp the new zoom, then
recompute the camera so that world point stays under the screen point. -/
def zoomAtPoint (mx my factor : ℚ) (cam : Camera) : Camera :=
  let worldX := cam.x + mx / cam.zoom
  let worldY := cam.y + my / cam.zoom
  let z := max MIN_ZOOM (min MAX_ZOOM (cam.zoom * factor))
  { x := worldX - mx / z, y := worldY - my / z, zoom := z }

/-- One `handleWheel` event (zoom factor `0.99` or `1.01` by wheel
direction) followed by the bounds clamp. -/
def handleWheelStep (env : ViewEnv) (mx my deltaY : ℚ) (cam : Camera) : Camera :=
  let zoomDelta : ℚ := if deltaY > 0 then 99 / 100 else 101 / 100
  clampCameraToBounds env (zoomAtPoint mx my zoomDelta cam)

/-- `zoomToCenter` of `visualizer.js` followed by the bounds clamp. -/
def zoomToCenter (env : ViewEnv) (zoomDelta : ℚ) (cam : Camera) : Camera :=
  clampCameraToBounds env (zoomAtPoint (env.rectW / 2) (env.rectH / 2) zoomDelta cam)

/-- A pan or zoom user operation. -/
inductive PanZoomOp where
  | pan (dx dy : ℚ)
  | wheel (mx my deltaY : ℚ)
  | zoomCenter (delta : ℚ)
  deriving DecidableEq, Repr

/-- Apply one operation (each ends in `clampCameraToBounds`). -/
def stepOp (env : ViewEnv) : PanZoomOp → Camera → Camera
  | .pan dx dy => panBy env dx dy
  | .wheel mx my deltaY => handleWheelStep env mx my deltaY
  | .zoomCenter delta => zoomToCenter env delta

/-- Apply a sequence of pan/zoom operations. -/
def applyOps (env : ViewEnv) (ops : List PanZoomOp) (cam : Camera) : Camera :=
  ops.foldl (fun c op => stepOp env op c) cam

/-- The camera-bounds predicate of the spec: the camera position lies
within the overscroll margin of the content bounding box, at the camera's
current zoom. -/
def inBounds (env : ViewEnv) (cam : Camera) : Prop :=
  let viewportWidth := env.rectW / cam.zoom
  let viewportHeight := env.rectH / cam.zoom
  let marginX := max 0 ((viewportWidth - env.contentW) / 2)
  let marginY := max 0 ((viewportHeight - env.contentH) / 2)
  (-env.contentW * (1 / 2) - marginX ≤ cam.x
      ∧ cam.x ≤ env.contentW * (3 / 2) - viewportWidth + marginX)
    ∧ (-env.contentH * (1 / 2) - marginY ≤ cam.y
      ∧ cam.y ≤ env.contentH * (3 / 2) - viewportHeight + marginY)

/-! ## Tree layout (`calculateTreeLayout`)

The source computes the layout on the graph mapping with a visited set in
each pass.  Claim C8 restricts attention to tree-shaped input (one root,
every node reachable exactly once, all children present), on which the
visited set never fires and the recursion follows the tree structure; the
embedding therefore works on the unfolded tree, with node-id distinctness
(`(treeIds t).Nodup`) as the tree-shape hypothesis. -/

/-- `NODE_WIDTH` of `visualizer.js`. -/
def NODE_WIDTH : ℚ := 160

/-- `NODE_HEIGHT` of `visualizer.js`. -/
def NODE_HEIGHT : ℚ := 65

/-- `HORIZONTAL_SPACING` of `visualizer.js`. -/
def HORIZONTAL_SPACING : ℚ := 40

/-- `VERTICAL_SPACING` of `visualizer.js`. -/
def VERTICAL_SPACING : ℚ := 80

/-- A plan subtree: a node id with its child subtrees in order. -/
inductive PTree where
  | node (id : Int) (children : List PTree)

/-- The node id at the root of a subtree. -/
def PTree.rootId : PTree → Int
  | .node i _ => i

/-- The child subtrees. -/
def PTree.childTrees : PTree → List PTree
  | .node _ cs => cs

mutual

/-- Pass 1, `calcSubtreeWidth`: a leaf is `NODE_WIDTH` wide; an internal
node is the sum of its children's widths plus spacing between consecutive
children, floored at `NODE_WIDTH`. -/
def calcSubtreeWidth : PTree → ℚ
  | .node _ cs => if cs.isEmpty then NODE_WIDTH else max NODE_WIDTH (childrenWidth cs)

/-- The `totalWidth` accumulation over a child list (spacing between
consecutive children only). -/
def childrenWidth : List PTree → ℚ
  | [] => 0
  | [t] => calcSubtreeWidth t
  | t :: t2 :: ts => calcSubtreeWidth t + HORIZONTAL_SPACING + childrenWidth (t2 :: ts)

end

mutual

/-- Pass 2, `assignPositions`: the node is centred over its subtree span
starting at `x`; children are laid out left to right from `x`, one row
down. -/
def assignPositions : PTree → ℚ → ℚ → List (Int × ℚ × ℚ)
  | .node i cs, x, y =>
      (i, x + (calcSubtreeWidth (.node i cs) - NODE_WIDTH) / 2, y)
        :: assignChildren cs x (y + NODE_HEIGHT + VERTICAL_SPACING)

/-- The `childX` advancing loop over a child list. -/
def assignChildren : List PTree → ℚ → ℚ → List (Int × ℚ × ℚ)
  | [], _, _ => []
  | t :: ts, x, y =>
      assignPositions t x y ++ assignChildren ts (x + calcSubtreeWidth t + HORIZONTAL_SPACING) y

end

mutual

/-- All node ids of a subtree in traversal order. -/
def treeIds : PTree → List Int
  | .node i cs => i :: forestIds cs

/-- All node ids of a forest. -/
def forestIds : List PTree → List Int
  | [] => []
  | t :: ts => treeIds t ++ forestIds ts

end

/-- `calculateTreeLayout`'s position map: the root is laid out at
`(0, 0)`. -/
def calculateTreeLayout (t : PTree) : List (Int × ℚ × ℚ) :=
  assignPositions t 0 0

/-- Position lookup by node id. -/
def posOf (l : List (Int × ℚ × ℚ)) (i : Int) : Option (ℚ × ℚ) :=
  (l.find? (fun e => e.1 == i)).map (·.2)

/-- `s` occurs as a subtree of `t` (reflexively). -/
inductive IsSubtree : PTree → PTree → Prop
  | refl (t : PTree) : IsSubtree t t
  | step {t c s : PTree} : c ∈ t.childTrees → IsSubtree c s → IsSubtree t s

/-! # Theorems -/

/-- C5: the round-trip `parse(format(x)) == x` fails on the sample
magnitude 1.592 ms: `formatTime` rounds to two decimals in the display
unit, so the formatted string `"1.59ms"` parses back to 1.59 ms, off by
2 µs — far beyond floating-point tolerance. -/
theorem c5_roundtrip_cex :
    parseNumericValue (formatTime (1592 / 1000000)) ≠ 1592 / 1000000 := by
  decide

/-- C5 (amended): `parse(format(x)) == x` holds exactly for 0, 500 ns and
1.5 h; for 1.592 ms and 26.134 s the round trip returns the value rounded
to two decimals in the display unit (1.59 ms and 26.13 s respectively);
and parsing the compound form `"26s134ms"` yields exactly 26.134
seconds. -/
theorem c5_roundtrip_amended :
    parseNumericValue (formatTime 0) = 0
  ∧ parseNumericValue (formatTime (1 / 2000000)) = 1 / 2000000
  ∧ parseNumericValue (formatTime (3 / 2 * 3600)) = 3 / 2 * 3600
  ∧ parseNumericValue (formatTime (1592 / 1000000)) = 159 / 100000
  ∧ parseNumericValue (formatTime (13067 / 500)) = 2613 / 100
  ∧ parseNumericValue "26s134ms" = 13067 / 500 := by
  refine ⟨by decide, by decide, by decide, by decide, by decide, by decide⟩

/-- C9: an anchor-preserving zoom at an arbitrary screen point with an
arbitrary factor sets the new zoom to the old zoom times the factor
clamped to `[MIN_ZOOM, MAX_ZOOM]`, and the world point that was under the
screen point before the zoom is still under it once the camera position
has been recomputed. -/
theorem c9_zoom_anchor (cam : Camera) (mx my factor : ℚ) :
    (zoomAtPoint mx my factor cam).zoom
        = max MIN_ZOOM (min MAX_ZOOM (cam.zoom * factor))
  ∧ (zoomAtPoint mx my factor cam).x + mx / (zoomAtPoint mx my factor cam).zoom
        = cam.x + mx / cam.zoom
  ∧ (zoomAtPoint mx my factor cam).y + my / (zoomAtPoint mx my factor cam).zoom
        = cam.y + my / cam.zoom := by
  refine ⟨rfl, ?_, ?_⟩ <;> simp [zoomAtPoint]

/-- `jsOr` of a present, non-empty string is that string. -/
theorem jsOr_some_ne {t : String} (d : String) (h : t ≠ "") : jsOr (some t) d = t := by
  simp [jsOr, jsTruthy, h]

/-- C10: the node-selector grammar only accepts non-negative integer ids —
any `node=` term whose id starts with a minus sign parses to `null` and is
silently dropped, and every successfully parsed node selector has a
non-negative id — while the metric extractor's key regex accepts and
indexes negative plan-node ids, exhibited at `plan_node_id=-1`. -/
theorem c10_negative_node_ids :
    (∀ s : String, parseSelector ("node=-" ++ s) = none)
  ∧ (∀ n : Int, n < 0 → parseSelector ("node=" ++ toString n) = none)
  ∧ (∀ part sel, parseSelector part = some (.node sel) → 0 ≤ sel.nodeId)
  ∧ mmGet (extractMetricsByPlanNodeId
      [("Fragment 0", [("Pipeline (id=0)",
        [("RESULT_SINK (plan_node_id=-1)", ([], []))])])]) (-1)
      = some ⟨[⟨"RESULT_SINK", [], []⟩]⟩ := by
  have base : ∀ s : String, parseSelector ("node=-" ++ s) = none := by
    intro s
    have hd : ("node=-" ++ s).data = 'n' :: 'o' :: 'd' :: 'e' :: '=' :: '-' :: s.data := by
      simp [String.data_append]
    simp [parseSelector, matchTypeSel, matchTableSel, matchNodeSel, hd, List.take,
      List.takeWhile]
  refine ⟨base, ?_, ?_, by decide⟩
  · intro n hn
    match n, hn with
    | .negSucc m, _ =>
      have hs : ("node=" ++ toString (Int.negSucc m)) = "node=-" ++ Nat.repr (m + 1) := by
        show "node=" ++ Int.repr (.negSucc m) = _
        rcases hrep : Nat.repr (m + 1) with ⟨l⟩
        simp [Int.repr, Nat.succ_eq_add_one, hrep]
        rfl
      rw [hs]
      exact base _
  · intro part sel h
    unfold parseSelector at h
    cases hty : matchTypeSel part.data with
    | some cap =>
        rw [hty] at h
        by_cases hv : validTypes.contains (strLower cap) <;> simp [hv] at h
    | none =>
      rw [hty] at h
      cases htb : matchTableSel part.data with
      | some cap =>
          rw [htb] at h
          by_cases hv : jsTrim cap = "" <;> simp [hv] at h
      | none =>
        rw [htb] at h
        cases hnd : matchNodeSel part.data with
        | none => rw [hnd] at h; simp at h
        | some trip =>
            rw [hnd] at h
            obtain ⟨nid, up, down⟩ := trip
            by_cases h0 : (0 : Int) ≤ nid
            · simp only [h0, if_pos, Option.some.injEq, Selector.node.injEq] at h
              rw [← h]
              exact h0
            · simp [h0] at h

/-- C10 witness: the concrete negative-id term `node=-3` is rejected by
the selector parser. -/
theorem c10_negative_node_ids_witness :
    parseSelector ("node=-" ++ "3") = none ∧ ((-3 : Int) < 0
      ∧ parseSelector ("node=" ++ toString (-3 : Int)) = none) :=
  ⟨c10_negative_node_ids.1 "3",
   by norm_num, c10_negative_node_ids.2.1 (-3) (by norm_num)⟩

/-- C4: for a join node, the derived join total time is the probe
instance's `OperatorTotalTime` plus the build instance's
`OperatorTotalTime` (in microseconds); with the build instance absent it
is the probe time alone, and `getJoinMetrics` still returns a view (the
computation is total and cannot throw). -/
theorem c4_join_total (md : NodeMetricsRec) (p : OpInstance) (t1 : String)
    (hp : (findJoinInstances md.instances).1 = some p)
    (ht1 : smGet p.common "OperatorTotalTime" = some t1) (hne1 : t1 ≠ "") :
    (∀ b t2, (findJoinInstances md.instances).2 = some b →
        smGet b.common "OperatorTotalTime" = some t2 → t2 ≠ "" →
        joinTotalUs md = parseTimeToMicroseconds t1 + parseTimeToMicroseconds t2)
  ∧ ((findJoinInstances md.instances).2 = none →
        joinTotalUs md = parseTimeToMicroseconds t1)
  ∧ (getJoinMetrics (some md)).isSome = true := by
  have hinst : md.instances ≠ [] := by
    intro h0
    rw [h0] at hp
    simp [findJoinInstances] at hp
  have e1 : joinSlotTime (findJoinInstances md.instances).1 = t1 := by
    rw [hp]
    simp [joinSlotTime, ht1, jsOr_some_ne _ hne1]
  refine ⟨?_, ?_, ?_⟩
  · intro b t2 hb ht2 hne2
    have e2 : joinSlotTime (findJoinInstances md.instances).2 = t2 := by
      rw [hb]
      simp [joinSlotTime, ht2, jsOr_some_ne _ hne2]
    unfold joinTotalUs
    rw [e1, e2, add_comm]
  · intro hb
    have e2 : joinSlotTime (findJoinInstances md.instances).2 = "N/A" := by
      rw [hb]
      rfl
    unfold joinTotalUs
    rw [e1, e2]
    have hna : parseTimeToMicroseconds "N/A" = 0 := rfl
    rw [hna, zero_add]
  · have hie : md.instances.isEmpty = false := by
      simpa [List.isEmpty_iff] using hinst
    rcases hfb : findJoinInstances md.instances with ⟨fp, fb⟩
    rw [hfb] at hp
    cases fp with
    | none => simp at hp
    | some q => cases fb <;> simp [getJoinMetrics, hie, hfb]

/-- C4 witness: a join node with probe time 10 µs and build time 20 µs
derives 30 µs; with only the probe instance it derives 10 µs. -/
theorem c4_join_total_witness :
    joinTotalUs ⟨[⟨"HASH_JOIN_PROBE", [("OperatorTotalTime", "10us")], []⟩,
                  ⟨"HASH_JOIN_BUILD", [("OperatorTotalTime", "20us")], []⟩]⟩ = 30
  ∧ joinTotalUs ⟨[⟨"HASH_JOIN_PROBE", [("OperatorTotalTime", "10us")], []⟩]⟩ = 10 := by
  constructor
  · have h := (c4_join_total
      ⟨[⟨"HASH_JOIN_PROBE", [("OperatorTotalTime", "10us")], []⟩,
        ⟨"HASH_JOIN_BUILD", [("OperatorTotalTime", "20us")], []⟩]⟩
      ⟨"HASH_JOIN_PROBE", [("OperatorTotalTime", "10us")], []⟩ "10us"
      (by decide) (by decide) (by decide)).1
      ⟨"HASH_JOIN_BUILD", [("OperatorTotalTime", "20us")], []⟩ "20us"
      (by decide) (by decide) (by decide)
    rw [h]
    decide
  · have h := (c4_join_total
      ⟨[⟨"HASH_JOIN_PROBE", [("OperatorTotalTime", "10us")], []⟩]⟩
      ⟨"HASH_JOIN_PROBE", [("OperatorTotalTime", "10us")], []⟩ "10us"
      (by decide) (by decide) (by decide)).2.1 (by decide)
    rw [h]
    decide

/-! ### C1: scan-node total time -/

/-- Per-instance total-time contribution as described by the spec's
aggregation formula, written with the `|| default` fallbacks:
`OperatorTotalTime`, plus `ScanTime` for instances whose name contains
`SCAN`, plus `NetworkTime` for `EXCHANGE_SINK` instances. -/
def specContribUs (i : OpInstance) : ℚ :=
  parseTimeToMicroseconds (jsOr (smGet i.common "OperatorTotalTime") "N/A")
  + (if isScanishName i then
      parseTimeToMicroseconds (jsOr (smGet i.unique "ScanTime") "N/A") else 0)
  + (if strUpper i.operatorName = "EXCHANGE_SINK" then
      parseTimeToMicroseconds (jsOr (smGet i.unique "NetworkTime") "N/A") else 0)

/-- A missing or empty metric contributes zero time through the `|| "N/A"`
fallback. -/
theorem parse_jsOr_na (v : Option String) :
    parseTimeToMicroseconds (jsOr v "N/A")
      = if jsTruthy v then parseTimeToMicroseconds (v.getD "") else 0 := by
  cases v with
  | none => rfl
  | some s =>
    by_cases hs : s = ""
    · subst hs
      rfl
    · simp [jsOr, jsTruthy, hs]

/-- The loop body of `getNodeTotalTime` computes exactly the spec's
per-instance contribution. -/
theorem instContribUs_eq_spec (i : OpInstance) : instContribUs i = specContribUs i := by
  unfold instContribUs specContribUs
  rw [parse_jsOr_na, parse_jsOr_na, parse_jsOr_na]
  rcases hsc : isScanishName i with _ | _ <;>
    rcases hex : strUpper i.operatorName == "EXCHANGE_SINK" with _ | _ <;>
    rcases htr : jsTruthy (smGet i.unique "ScanTime") with _ | _ <;>
    rcases hnet : jsTruthy (smGet i.unique "NetworkTime") with _ | _ <;>
    simp_all [isScanishName, beq_iff_eq]

/-- The accumulation loop is the sum of the mapped contributions. -/
theorem nodeTotalUs_eq_sum (md : NodeMetricsRec) :
    nodeTotalUs md = (md.instances.map specContribUs).sum := by
  have gen : ∀ (l : List OpInstance) (a : ℚ),
      l.foldl (fun acc i => acc + instContribUs i) a = a + (l.map instContribUs).sum := by
    intro l
    induction l with
    | nil => intro a; simp
    | cons x xs ih =>
        intro a
        simp [ih, add_assoc]
  unfold nodeTotalUs
  rw [gen, zero_add]
  have hfe : instContribUs = specContribUs := funext instContribUs_eq_spec
  rw [hfe]

/-- C1 counterexample node: a scan node with a primary `OLAP_SCAN`
instance (10 µs operator time, 5 µs scan time) and an auxiliary
`CHUNK_ACCUMULATE` instance (3 µs operator time). -/
def c1scanInst : OpInstance :=
  ⟨"OLAP_SCAN", [("OperatorTotalTime", "10us")], [("ScanTime", "5us")]⟩

/-- The auxiliary instance of the C1 counterexample. -/
def c1auxInst : OpInstance :=
  ⟨"CHUNK_ACCUMULATE", [("OperatorTotalTime", "3us")], []⟩

/-- The C1 counterexample metrics record. -/
def c1node : NodeMetricsRec := ⟨[c1scanInst, c1auxInst]⟩

/-- C1 counterexample: for the scan node `c1node` the chosen instance is
`OLAP_SCAN`, whose `OperatorTotalTime + ScanTime` is 15 µs, but the
derived total time (`getNodeTotalTime`) is 18 µs — it also sums the
auxiliary instance's `OperatorTotalTime` — so the claimed equality fails. -/
theorem c1_scan_total_cex :
    isScanOperator "OLAP_SCAN" = true
  ∧ chooseScanInstance c1node = some c1scanInst
  ∧ parseTimeToMicroseconds (scanViewOf c1scanInst).operatorTotalTime
      + parseTimeToMicroseconds (scanViewOf c1scanInst).scanTime = 15
  ∧ getNodeTotalTime (some c1node) = some "18.00us"
  ∧ nodeDerivedTimeUs ⟨0, "OLAP_SCAN", [], some c1node⟩ = 18
  ∧ parseTimeToMicroseconds (scanViewOf c1scanInst).operatorTotalTime
      + parseTimeToMicroseconds (scanViewOf c1scanInst).scanTime
      ≠ nodeDerivedTimeUs ⟨0, "OLAP_SCAN", [], some c1node⟩ := by
  refine ⟨by decide, by decide, by decide, by decide, by decide, by decide⟩

/-- C1 (amended): for every node with a non-empty instances list the
derived total time sums over all instances — `OperatorTotalTime` of every
instance, `ScanTime` of every instance whose name contains `SCAN`, and
`NetworkTime` of `EXCHANGE_SINK` instances — while the priority selection
(exact `OLAP_SCAN`/`CONNECTOR_SCAN`, else a name containing `SCAN`, else
the first instance) governs the instance whose metrics `getScanMetrics`
projects into the scan detail view. -/
theorem c1_scan_total_amended (md : NodeMetricsRec) (h : md.instances ≠ []) :
    nodeTotalUs md = (md.instances.map specContribUs).sum
  ∧ ∃ c, chooseScanInstance md = some c
      ∧ getScanMetrics (some md) = some (scanViewOf c)
      ∧ c ∈ md.instances
      ∧ (if md.instances.any isPrimaryScanName then isPrimaryScanName c = true
         else if md.instances.any isScanishName then isScanishName c = true
         else md.instances.head? = some c) := by
  refine ⟨nodeTotalUs_eq_sum md, ?_⟩
  rcases hi : md.instances with _ | ⟨first, rest⟩
  · exact absurd hi h
  cases hfp : md.instances.find? isPrimaryScanName with
  | some i =>
      refine ⟨i, ?_, ?_, ?_, ?_⟩
      · simp [chooseScanInstance, hi, hi ▸ hfp]
      · simp [getScanMetrics, chooseScanInstance, hi, hi ▸ hfp]
      · exact hi ▸ List.mem_of_find?_eq_some hfp
      · have hany : md.instances.any isPrimaryScanName = true :=
          List.any_eq_true.mpr ⟨i, List.mem_of_find?_eq_some hfp, List.find?_some hfp⟩
        simp [hi ▸ hany, List.find?_some hfp]
  | none =>
    have hnone : ∀ x ∈ md.instances, ¬ isPrimaryScanName x = true :=
      fun x hx => by
        have := List.find?_eq_none.mp hfp x hx
        simpa using this
    have hany : md.instances.any isPrimaryScanName = false := by
      rw [Bool.eq_false_iff]
      intro hc
      rcases List.any_eq_true.mp hc with ⟨x, hx, hpx⟩
      exact hnone x hx hpx
    cases hfs : md.instances.find? isScanishName with
    | some j =>
        refine ⟨j, ?_, ?_, ?_, ?_⟩
        · simp [chooseScanInstance, hi, hi ▸ hfp, hi ▸ hfs]
        · simp [getScanMetrics, chooseScanInstance, hi, hi ▸ hfp, hi ▸ hfs]
        · exact hi ▸ List.mem_of_find?_eq_some hfs
        · have hany2 : md.instances.any isScanishName = true :=
            List.any_eq_true.mpr ⟨j, List.mem_of_find?_eq_some hfs, List.find?_some hfs⟩
          simp [hi ▸ hany, hi ▸ hany2, List.find?_some hfs]
    | none =>
      have hnone2 : ∀ x ∈ md.instances, ¬ isScanishName x = true :=
        fun x hx => by
          have := List.find?_eq_none.mp hfs x hx
          simpa using this
      have hany2 : md.instances.any isScanishName = false := by
        rw [Bool.eq_false_iff]
        intro hc
        rcases List.any_eq_true.mp hc with ⟨x, hx, hpx⟩
        exact hnone2 x hx hpx
      refine ⟨first, ?_, ?_, ?_, ?_⟩
      · simp [chooseScanInstance, hi, hi ▸ hfp, hi ▸ hfs]
      · simp [getScanMetrics, chooseScanInstance, hi, hi ▸ hfp, hi ▸ hfs]
      · exact List.mem_cons_self first rest
      · simp [hi ▸ hany, hi ▸ hany2, hi]

/-- C1 amended witness: the formula evaluates on the counterexample node,
whose derived total is 18 µs. -/
theorem c1_scan_total_amended_witness :
    nodeTotalUs c1node = (c1node.instances.map specContribUs).sum
  ∧ nodeTotalUs c1node = 18 :=
  ⟨(c1_scan_total_amended c1node (by decide)).1, by decide⟩

/-! ### C7: operator ranking -/

/-- Stable insertion permutes. -/
theorem insertDesc_perm (x : RankEntry) (l : List RankEntry) :
    (insertDesc x l).Perm (x :: l) := by
  induction l with
  | nil => exact List.Perm.refl _
  | cons y ys ih =>
    unfold insertDesc
    split
    · exact List.Perm.refl _
    · exact (ih.cons y).trans (List.Perm.swap x y ys)

/-- Stable insertion preserves descending sortedness. -/
theorem insertDesc_sorted (x : RankEntry) (l : List RankEntry)
    (h : l.Sorted (fun a b => b.timeMicros ≤ a.timeMicros)) :
    (insertDesc x l).Sorted (fun a b => b.timeMicros ≤ a.timeMicros) := by
  induction l with
  | nil => simp [insertDesc]
  | cons y ys ih =>
    rw [List.sorted_cons] at h
    unfold insertDesc
    split
    · rename_i hle
      rw [List.sorted_cons]
      refine ⟨?_, List.sorted_cons.mpr h⟩
      intro b hb
      rcases List.mem_cons.mp hb with hb | hb
      · exact hb ▸ hle
      · exact (h.1 b hb).trans hle
    · rename_i hgt
      rw [List.sorted_cons]
      refine ⟨?_, ih h.2⟩
      intro b hb
      rcases List.mem_cons.mp ((insertDesc_perm x ys).mem_iff.mp hb) with hb | hb
      · exact hb ▸ (le_of_lt (lt_of_not_le hgt))
      · exact h.1 b hb

/-- Stable insertion never reorders entries of equal key: filtering on any
key value commutes with the insertion. -/
theorem insertDesc_filter (x : RankEntry) (l : List RankEntry) (t : ℚ) :
    (insertDesc x l).filter (fun e => decide (e.timeMicros = t))
      = (x :: l).filter (fun e => decide (e.timeMicros = t)) := by
  induction l with
  | nil => rfl
  | cons y ys ih =>
    unfold insertDesc
    split
    · rfl
    · rename_i hgt
      by_cases hx : x.timeMicros = t
      · have hy : ¬ (y.timeMicros = t) := by
          intro he
          exact hgt (le_of_eq (by rw [he, hx]))
        simp only [List.filter_cons]
        simp [hx, hy, ih]
      · simp only [List.filter_cons]
        simp [hx, ih]

/-- The full insertion sort permutes. -/
theorem sortDesc_perm (l : List RankEntry) : (l.foldr insertDesc []).Perm l := by
  induction l with
  | nil => exact List.Perm.refl _
  | cons x xs ih => exact (insertDesc_perm x _).trans (ih.cons x)

/-- The full insertion sort sorts descending. -/
theorem sortDesc_sorted (l : List RankEntry) :
    (l.foldr insertDesc []).Sorted (fun a b => b.timeMicros ≤ a.timeMicros) := by
  induction l with
  | nil => simp
  | cons x xs ih => exact insertDesc_sorted x _ ih

/-- The full insertion sort is stable: it preserves the relative order of
equal-keyed entries. -/
theorem sortDesc_filter (l : List RankEntry) (t : ℚ) :
    (l.foldr insertDesc []).filter (fun e => decide (e.timeMicros = t))
      = l.filter (fun e => decide (e.timeMicros = t)) := by
  induction l with
  | nil => rfl
  | cons x xs ih =>
    show (insertDesc x (xs.foldr insertDesc [])).filter _ = _
    rw [insertDesc_filter]
    simp only [List.filter_cons]
    rw [ih]

/-- The collection loop gathers exactly the nodes with positive derived
total time, in graph iteration order. -/
theorem rankCandidates_eq (g : Graph) :
    rankCandidates g = g.filterMap (fun node =>
      if 0 < nodeDerivedTimeUs node then
        some ⟨node.id, node.name, (getNodeTotalTime node.metrics).getD "",
          nodeDerivedTimeUs node⟩
      else none) := by
  unfold rankCandidates
  apply List.filterMap_congr
  intro node _
  cases hm : node.metrics with
  | none => simp [nodeDerivedTimeUs, hm, getNodeTotalTime]
  | some md =>
    cases hgt : getNodeTotalTime (some md) with
    | none => simp [nodeDerivedTimeUs, hm, hgt]
    | some s => simp [nodeDerivedTimeUs, hm, hgt]

/-- C7: the operator ranking is a permutation of the nodes whose derived
total time is positive (taken in graph iteration order), it is sorted by
descending derived total time, and ties keep the original iteration order
(the sort is stable: filtering on any fixed time value yields the same
sequence before and after sorting). -/
theorem c7_operator_rankings (g : Graph) :
    (calculateOperatorRankings g).Perm (g.filterMap (fun node =>
        if 0 < nodeDerivedTimeUs node then
          some ⟨node.id, node.name, (getNodeTotalTime node.metrics).getD "",
            nodeDerivedTimeUs node⟩
        else none))
  ∧ (calculateOperatorRankings g).Sorted (fun a b => b.timeMicros ≤ a.timeMicros)
  ∧ ∀ t : ℚ, (calculateOperatorRankings g).filter (fun e => decide (e.timeMicros = t))
      = (rankCandidates g).filter (fun e => decide (e.timeMicros = t)) := by
  refine ⟨?_, ?_, ?_⟩
  · rw [← rankCandidates_eq]
    exact sortDesc_perm _
  · exact sortDesc_sorted _
  · intro t
    exact sortDesc_filter _ t

/-! ### C3: camera bounds invariant -/

/-- Clamping a value into a non-empty interval lands in the interval. -/
theorem clamp_mem {lo hi x : ℚ} (h : lo ≤ hi) :
    lo ≤ max lo (min hi x) ∧ max lo (min hi x) ≤ hi :=
  ⟨le_max_left _ _, max_le h (min_le_left _ _)⟩

/-- The bounds clamp never changes the zoom. -/
theorem clampCameraToBounds_zoom (env : ViewEnv) (cam : Camera) :
    (clampCameraToBounds env cam).zoom = cam.zoom := by
  unfold clampCameraToBounds
  split <;> rfl

/-- After `clampCameraToBounds`, the camera position lies within the
overscroll margin of the content bounding box (the clamp interval is
always non-empty when the content is non-empty). -/
theorem clampCameraToBounds_inBounds (env : ViewEnv) (cam : Camera)
    (hcw : 0 < env.contentW) (hch : 0 < env.contentH)
    (hrw : 0 ≤ env.rectW) (hrh : 0 ≤ env.rectH) (hz : 0 < cam.zoom) :
    inBounds env (clampCameraToBounds env cam) := by
  have hc0 : ¬(env.contentW = 0 ∨ env.contentH = 0) := by
    push_neg
    exact ⟨ne_of_gt hcw, ne_of_gt hch⟩
  have hvw : 0 ≤ env.rectW / cam.zoom := div_nonneg hrw (le_of_lt hz)
  have hvh : 0 ≤ env.rectH / cam.zoom := div_nonneg hrh (le_of_lt hz)
  have hmx : (env.rectW / cam.zoom - env.contentW) / 2
      ≤ max 0 ((env.rectW / cam.zoom - env.contentW) / 2) := le_max_right _ _
  have hmy : (env.rectH / cam.zoom - env.contentH) / 2
      ≤ max 0 ((env.rectH / cam.zoom - env.contentH) / 2) := le_max_right _ _
  have hltx : -env.contentW * (1 / 2) - max 0 ((env.rectW / cam.zoom - env.contentW) / 2)
      < env.contentW * (1 + 1 / 2) - env.rectW / cam.zoom
        + max 0 ((env.rectW / cam.zoom - env.contentW) / 2) := by
    nlinarith [hmx, hcw]
  have hlty : -env.contentH * (1 / 2) - max 0 ((env.rectH / cam.zoom - env.contentH) / 2)
      < env.contentH * (1 + 1 / 2) - env.rectH / cam.zoom
        + max 0 ((env.rectH / cam.zoom - env.contentH) / 2) := by
    nlinarith [hmy, hch]
  unfold clampCameraToBounds
  rw [if_neg hc0]
  unfold inBounds
  simp only [clampCameraToBounds_zoom]
  constructor
  · rw [if_pos hltx]
    have h2 := @clamp_mem _ _ cam.x (le_of_lt hltx)
    constructor
    · linarith [h2.1]
    · linarith [h2.2]
  · rw [if_pos hlty]
    have h2 := @clamp_mem _ _ cam.y (le_of_lt hlty)
    constructor
    · linarith [h2.1]
    · linarith [h2.2]

/-- The zoom stays positive through every pan/zoom step. -/
theorem stepOp_zoom_pos (env : ViewEnv) (op : PanZoomOp) (cam : Camera)
    (hz : 0 < cam.zoom) : 0 < (stepOp env op cam).zoom := by
  have hmin : (0 : ℚ) < MIN_ZOOM := by norm_num [MIN_ZOOM]
  cases op with
  | pan dx dy =>
      simpa [stepOp, panBy, clampCameraToBounds_zoom] using hz
  | wheel mx my deltaY =>
      simp only [stepOp, handleWheelStep, clampCameraToBounds_zoom, zoomAtPoint]
      exact lt_of_lt_of_le hmin (le_max_left _ _)
  | zoomCenter delta =>
      simp only [stepOp, zoomToCenter, clampCameraToBounds_zoom, zoomAtPoint]
      exact lt_of_lt_of_le hmin (le_max_left _ _)

/-- Every single pan/zoom step (each ends with the bounds clamp) lands in
bounds. -/
theorem stepOp_inBounds (env : ViewEnv) (op : PanZoomOp) (cam : Camera)
    (hcw : 0 < env.contentW) (hch : 0 < env.contentH)
    (hrw : 0 ≤ env.rectW) (hrh : 0 ≤ env.rectH) (hz : 0 < cam.zoom) :
    inBounds env (stepOp env op cam) := by
  have hmin : (0 : ℚ) < MIN_ZOOM := by norm_num [MIN_ZOOM]
  cases op with
  | pan dx dy =>
      exact clampCameraToBounds_inBounds env _ hcw hch hrw hrh hz
  | wheel mx my deltaY =>
      refine clampCameraToBounds_inBounds env _ hcw hch hrw hrh ?_
      exact lt_of_lt_of_le hmin (le_max_left _ _)
  | zoomCenter delta =>
      refine clampCameraToBounds_inBounds env _ hcw hch hrw hrh ?_
      exact lt_of_lt_of_le hmin (le_max_left _ _)

/-- A non-empty operation sequence lands in bounds. -/
theorem applyOps_cons_inBounds (env : ViewEnv)
    (hcw : 0 < env.contentW) (hch : 0 < env.contentH)
    (hrw : 0 ≤ env.rectW) (hrh : 0 ≤ env.rectH) :
    ∀ (ops : List PanZoomOp) (op : PanZoomOp) (cam : Camera), 0 < cam.zoom →
      inBounds env (applyOps env (op :: ops) cam) := by
  intro ops
  induction ops with
  | nil =>
      intro op cam hz
      exact stepOp_inBounds env op cam hcw hch hrw hrh hz
  | cons op2 rest ih =>
      intro op cam hz
      show inBounds env (applyOps env (op2 :: rest) (stepOp env op cam))
      exact ih op2 (stepOp env op cam) (stepOp_zoom_pos env op cam hz)

/-- C3: for a non-empty content size, after any finite non-empty sequence
of pan and zoom operations (each applying the bounds clamp) the camera
position lies within the configured overscroll margin (half the content
size, widened by the centering margin when the viewport exceeds the
content) of the content's bounding box. -/
theorem c3_camera_bounds (env : ViewEnv) (cam0 : Camera) (ops : List PanZoomOp)
    (hcw : 0 < env.contentW) (hch : 0 < env.contentH)
    (hrw : 0 ≤ env.rectW) (hrh : 0 ≤ env.rectH)
    (hz : 0 < cam0.zoom) (hops : ops ≠ []) :
    inBounds env (applyOps env ops cam0) := by
  cases ops with
  | nil => exact absurd rfl hops
  | cons op rest => exact applyOps_cons_inBounds env hcw hch hrw hrh rest op cam0 hz

/-- C3 witness: a canvas of 800×600 with content 1000×500, starting at the
identity camera, after an extreme pan, a zoom-out to the minimum and a
wheel zoom, ends within the overscroll bounds. -/
theorem c3_camera_bounds_witness :
    inBounds ⟨800, 600, 1000, 500⟩
      (applyOps ⟨800, 600, 1000, 500⟩
        [.pan 100000 (-100000), .zoomCenter (1 / 1000), .wheel 5 5 1]
        ⟨0, 0, 1⟩) := by
  have h := c3_camera_bounds ⟨800, 600, 1000, 500⟩ ⟨0, 0, 1⟩
    [.pan 100000 (-100000), .zoomCenter (1 / 1000), .wheel 5 5 1]
    (by norm_num) (by norm_num) (by norm_num) (by norm_num) (by norm_num)
    (by simp)
  exact h

/-! ### C2: filter boolean algebra -/

/-- The node-id sets of all AND-terms of one group, in evaluation order. -/
def termSets (g : Graph) (pm : ParentMap) (grp : FilterGroup) : List (Finset Int) :=
  grp.nodeSelectors.map (getNodesForSelector g pm)
    ++ grp.typeFilters.map (getNodesForType g)
    ++ grp.tableFilters.map (getNodesForTable g)

/-- Intersection of a list of sets; the empty list yields the empty set
(an AND-group with zero terms contributes nothing). -/
def interAll : List (Finset Int) → Finset Int
  | [] => ∅
  | s :: rest => rest.foldl (fun a b => a ∩ b) s

/-- The option-valued intersection fold shared by the three selector kinds
in `applyFilter`. -/
def foldInter (l : List (Finset Int)) (acc : Option (Finset Int)) : Option (Finset Int) :=
  l.foldl (fun a s =>
    match a with
    | none => some s
    | some t => some (t ∩ s)) acc

/-- `groupFold` is the option-intersection fold over the group's term
sets. -/
theorem groupFold_eq (g : Graph) (pm : ParentMap) (grp : FilterGroup) :
    groupFold g pm grp = foldInter (termSets g pm grp) none := by
  unfold groupFold foldInter termSets
  rw [List.foldl_append, List.foldl_append, List.foldl_map, List.foldl_map, List.foldl_map]

/-- Folding from a seeded accumulator is plain intersection folding. -/
theorem foldInter_some (l : List (Finset Int)) (s : Finset Int) :
    foldInter l (some s) = some (l.foldl (fun a b => a ∩ b) s) := by
  induction l generalizing s with
  | nil => rfl
  | cons x xs ih => simpa [foldInter] using ih (s ∩ x)

/-- Folding a non-empty term list from `none` computes the full
intersection. -/
theorem foldInter_none (l : List (Finset Int)) (h : l ≠ []) :
    foldInter l none = some (interAll l) := by
  cases l with
  | nil => exact absurd rfl h
  | cons s rest =>
      show foldInter rest (some s) = _
      rw [foldInter_some]
      rfl

/-- The OR fold of `applyFilter` computes the union of the groups'
intersections. -/
theorem computeMatching_eq (g : Graph) (pm : ParentMap) (groups : List FilterGroup) :
    computeMatching g pm groups
      = (groups.map (fun grp => interAll (termSets g pm grp))).foldl
          (fun a b => a ∪ b) ∅ := by
  have aux : ∀ (gs : List FilterGroup) (init : Finset Int),
      gs.foldl (fun acc grp =>
        match groupFold g pm grp with
        | none => acc
        | some s => acc ∪ s) init
      = (gs.map (fun grp => interAll (termSets g pm grp))).foldl
          (fun a b => a ∪ b) init := by
    intro gs
    induction gs with
    | nil => intro init; rfl
    | cons grp rest ih =>
        intro init
        rcases hts : termSets g pm grp with _ | ⟨s0, srest⟩
        · have h1 : groupFold g pm grp = none := by
            rw [groupFold_eq, hts]
            rfl
          have h2 : interAll (termSets g pm grp) = ∅ := by rw [hts]; rfl
          simp only [List.foldl_cons, List.map_cons, h1, h2, Finset.union_empty]
          exact ih init
        · have h1 : groupFold g pm grp = some (interAll (termSets g pm grp)) := by
            rw [groupFold_eq, foldInter_none _ (by rw [hts]; simp)]
          simp only [List.foldl_cons, List.map_cons, h1]
          exact ih _
  exact aux groups ∅

/-- Every OR-group produced by the parser has at least one valid term. -/
theorem parseFilterQuery_groups_nonempty (q : String) :
    ∀ grp ∈ (parseFilterQuery q).orGroups,
      grp.nodeSelectors ≠ [] ∨ grp.typeFilters ≠ [] ∨ grp.tableFilters ≠ [] := by
  unfold parseFilterQuery
  split
  · intro grp h
    simp at h
  · have aux : ∀ (parts : List String) (acc : List FilterGroup),
        (∀ grp ∈ acc,
          grp.nodeSelectors ≠ [] ∨ grp.typeFilters ≠ [] ∨ grp.tableFilters ≠ []) →
        ∀ grp ∈ parts.foldl (fun acc orPart =>
          let andParts := (jsSplitSeps "and" '&' orPart).filter (fun p => p ≠ "")
          let group := andParts.foldl (fun (g : FilterGroup) part =>
            match parseSelector (jsTrim part) with
            | some (.node sel) => { g with nodeSelectors := g.nodeSelectors ++ [sel] }
            | some (.type t) => { g with typeFilters := g.typeFilters ++ [t] }
            | some (.table t) => { g with tableFilters := g.tableFilters ++ [t] }
            | none => g) ⟨[], [], []⟩
          if group.nodeSelectors ≠ [] ∨ group.typeFilters ≠ [] ∨ group.tableFilters ≠ []
          then acc ++ [group] else acc) acc,
          grp.nodeSelectors ≠ [] ∨ grp.typeFilters ≠ [] ∨ grp.tableFilters ≠ [] := by
      intro parts
      induction parts with
      | nil => intro acc hacc; exact hacc
      | cons p ps ih =>
          intro acc hacc
          apply ih
          intro grp hgrp
          dsimp only at hgrp
          split at hgrp
          · rcases List.mem_append.mp hgrp with h | h
            · exact hacc grp h
            · rename_i hcond
              rcases List.mem_singleton.mp h with rfl
              exact hcond
          · exact hacc grp hgrp
    exact aux _ [] (by intro grp h; simp at h)

/-- C2: `applyFilter`'s matching set is the union over all OR-groups of
the intersection of the node-id sets of the group's AND-terms (AND binds
tighter than OR); groups with zero valid terms are never produced (a
malformed part is dropped, and a fully-malformed or empty query yields no
OR-groups, which resets to the unfiltered state); and
`"type=scan, type=join"` matches the union of all scan and all join
nodes. -/
theorem c2_filter_boolean_algebra (g : Graph) (rootId : Int) (query : String) :
    applyFilter g rootId query =
      (if (parseFilterQuery query).orGroups.isEmpty then none
       else some (((parseFilterQuery query).orGroups.map
          (fun grp => interAll (termSets g (buildParentMap g rootId) grp))).foldl
            (fun a b => a ∪ b) ∅))
  ∧ (∀ grp ∈ (parseFilterQuery query).orGroups,
      grp.nodeSelectors ≠ [] ∨ grp.typeFilters ≠ [] ∨ grp.tableFilters ≠ [])
  ∧ parseFilterQuery "" = ⟨[], false⟩
  ∧ applyFilter g rootId "" = none
  ∧ (parseFilterQuery "garbage, blah").orGroups = []
  ∧ applyFilter g rootId "garbage, blah" = none
  ∧ applyFilter g rootId "type=scan, type=join"
      = some (getNodesForType g "scan" ∪ getNodesForType g "join") := by
  have hsj : parseFilterQuery "type=scan, type=join"
      = ⟨[⟨[], ["scan"], []⟩, ⟨[], ["join"], []⟩], false⟩ := by decide
  refine ⟨?_, parseFilterQuery_groups_nonempty query, by decide, rfl,
    by decide, rfl, ?_⟩
  · have hdef : applyFilter g rootId query =
        if (parseFilterQuery query).orGroups.isEmpty then none
        else some (computeMatching g (buildParentMap g rootId)
          (parseFilterQuery query).orGroups) := rfl
    rw [hdef]
    split
    · rfl
    · rw [computeMatching_eq]
  · simp only [applyFilter, hsj]
    simp [computeMatching, groupFold, Finset.empty_union]

/-! ### C6: ancestor / descendant traversal on a 4-level chain -/

/-- One recursion step of `buildParentMap`'s `traverse`. -/
theorem bpmTraverse_step (g : Graph) (fuel : ℕ) (st : List Int × ParentMap) (nodeId : Int) :
    bpmTraverse g (fuel + 1) st nodeId =
      if st.1.contains nodeId then st
      else
        match graphGet g nodeId with
        | none => (nodeId :: st.1, st.2)
        | some node =>
            node.children.foldl (fun st childId =>
              bpmTraverse g fuel (st.1, pmSet st.2 childId nodeId) childId)
              (nodeId :: st.1, st.2) := by
  rfl

/-- The `getUpstreamNodes` loop stops when the current node has no
parent. -/
theorem upstreamGo_none (pm : ParentMap) (fuel : ℕ) (cur : Int) (acc : Finset Int)
    (h : pmGet pm cur = none) : upstreamGo pm (fuel + 1) cur acc = acc := by
  conv_lhs => rw [upstreamGo]
  rw [h]

/-- The `getUpstreamNodes` loop follows the parent edge. -/
theorem upstreamGo_some (pm : ParentMap) (fuel : ℕ) (cur p : Int) (acc : Finset Int)
    (h : pmGet pm cur = some p) :
    upstreamGo pm (fuel + 1) cur acc = upstreamGo pm fuel p (insert p acc) := by
  conv_lhs => rw [upstreamGo]
  rw [h]

/-- The BFS loop with an empty queue returns the accumulator. -/
theorem downstreamGo_nil (g : Graph) (fuel : ℕ) (acc : Finset Int) :
    downstreamGo g (fuel + 1) [] acc = acc := by
  rfl

/-- The BFS loop expands an unvisited node that exists in the graph. -/
theorem downstreamGo_found (g : Graph) (fuel : ℕ) (cur : Int) (queue : List Int)
    (acc : Finset Int) (node : GNode) (hmem : cur ∉ acc) (h : graphGet g cur = some node) :
    downstreamGo g (fuel + 1) (cur :: queue) acc
      = downstreamGo g fuel (queue ++ node.children) (insert cur acc) := by
  conv_lhs => rw [downstreamGo]
  rw [if_neg hmem, h]

/-- A 4-level chain graph `root → A → B → C` with arbitrary ids, names and
metrics. -/
def chainGraph (r a b c : Int) (n1 n2 n3 n4 : String)
    (m1 m2 m3 m4 : Option NodeMetricsRec) : Graph :=
  [⟨r, n1, [a], m1⟩, ⟨a, n2, [b], m2⟩, ⟨b, n3, [c], m3⟩, ⟨c, n4, [], m4⟩]

/-- Lookups in the chain graph. -/
theorem chainGraph_get {r a b c : Int} {n1 n2 n3 n4 : String}
    {m1 m2 m3 m4 : Option NodeMetricsRec}
    (hra : r ≠ a) (hrb : r ≠ b) (hrc : r ≠ c)
    (hab : a ≠ b) (hac : a ≠ c) (hbc : b ≠ c) :
    graphGet (chainGraph r a b c n1 n2 n3 n4 m1 m2 m3 m4) r = some ⟨r, n1, [a], m1⟩
  ∧ graphGet (chainGraph r a b c n1 n2 n3 n4 m1 m2 m3 m4) a = some ⟨a, n2, [b], m2⟩
  ∧ graphGet (chainGraph r a b c n1 n2 n3 n4 m1 m2 m3 m4) b = some ⟨b, n3, [c], m3⟩
  ∧ graphGet (chainGraph r a b c n1 n2 n3 n4 m1 m2 m3 m4) c = some ⟨c, n4, [], m4⟩ := by
  have gra : (r == a) = false := by simp [hra]
  have grb : (r == b) = false := by simp [hrb]
  have grc : (r == c) = false := by simp [hrc]
  have gab : (a == b) = false := by simp [hab]
  have gac : (a == c) = false := by simp [hac]
  have gbc : (b == c) = false := by simp [hbc]
  refine ⟨?_, ?_, ?_, ?_⟩ <;>
    simp [graphGet, chainGraph, List.find?, gra, grb, grc, gab, gac, gbc]

/-- The cached parent map of the chain. -/
theorem chainGraph_parentMap {r a b c : Int} {n1 n2 n3 n4 : String}
    {m1 m2 m3 m4 : Option NodeMetricsRec}
    (hra : r ≠ a) (hrb : r ≠ b) (hrc : r ≠ c)
    (hab : a ≠ b) (hac : a ≠ c) (hbc : b ≠ c) :
    buildParentMap (chainGraph r a b c n1 n2 n3 n4 m1 m2 m3 m4) r
      = [(a, r), (b, a), (c, b)] := by
  obtain ⟨ggr, gga, ggb, ggc⟩ :=
    @chainGraph_get r a b c n1 n2 n3 n4 m1 m2 m3 m4 hra hrb hrc hab hac hbc
  have hlen : (chainGraph r a b c n1 n2 n3 n4 m1 m2 m3 m4).length + 2 = 5 + 1 := by
    simp [chainGraph]
  unfold buildParentMap
  rw [hlen, bpmTraverse_step]
  rw [show (([] : List Int).contains r) = false from rfl]
  rw [ggr]
  simp only [Bool.false_eq_true, if_false, List.foldl_cons, List.foldl_nil]
  rw [show (5 : ℕ) = 4 + 1 from rfl, bpmTraverse_step]
  rw [show ([r] : List Int).contains a = false by simp [hra.symm]]
  rw [gga]
  simp only [Bool.false_eq_true, if_false, List.foldl_cons, List.foldl_nil, pmSet]
  rw [show (4 : ℕ) = 3 + 1 from rfl, bpmTraverse_step]
  rw [show ([a, r] : List Int).contains b = false by simp [hab.symm, hrb.symm]]
  rw [ggb]
  simp only [Bool.false_eq_true, if_false, List.foldl_cons, List.foldl_nil]
  rw [show (3 : ℕ) = 2 + 1 from rfl, bpmTraverse_step]
  rw [show ([b, a, r] : List Int).contains c = false by simp [hbc.symm, hac.symm, hrc.symm]]
  rw [ggc]
  simp only [Bool.false_eq_true, if_false, List.foldl_cons, List.foldl_nil]
  simp [pmSet, hab, hac, hbc]

/-- Upstream of `C` through the chain's parent map: the node and all its
ancestors up to the root. -/
theorem chainGraph_upstream {r a b c : Int}
    (hra : r ≠ a) (hrb : r ≠ b) (hrc : r ≠ c)
    (hab : a ≠ b) (hac : a ≠ c) (hbc : b ≠ c) :
    getUpstreamNodes c [(a, r), (b, a), (c, b)] = insert r (insert a (insert b {c})) := by
  have gac : (a == c) = false := by simp [hac]
  have gbc : (b == c) = false := by simp [hbc]
  have gab : (a == b) = false := by simp [hab]
  have gar : (a == r) = false := by simp [hra.symm]
  have gbr : (b == r) = false := by simp [hrb.symm]
  have gcr : (c == r) = false := by simp [hrc.symm]
  have p1 : pmGet [(a, r), (b, a), (c, b)] c = some b := by
    simp [pmGet, List.find?, gac, gbc]
  have p2 : pmGet [(a, r), (b, a), (c, b)] b = some a := by
    simp [pmGet, List.find?, gab]
  have p3 : pmGet [(a, r), (b, a), (c, b)] a = some r := by
    simp [pmGet, List.find?]
  have p4 : pmGet [(a, r), (b, a), (c, b)] r = none := by
    simp [pmGet, List.find?, gar, gbr, gcr]
  unfold getUpstreamNodes
  rw [show ([(a, r), (b, a), (c, b)] : ParentMap).length + 1 = 3 + 1 from rfl]
  rw [upstreamGo_some _ _ _ _ _ p1]
  rw [show (3 : ℕ) = 2 + 1 from rfl, upstreamGo_some _ _ _ _ _ p2]
  rw [show (2 : ℕ) = 1 + 1 from rfl, upstreamGo_some _ _ _ _ _ p3]
  rw [show (1 : ℕ) = 0 + 1 from rfl, upstreamGo_none _ _ _ _ p4]

/-- Downstream of `A` through the chain: the node and all its
descendants, in BFS insertion order. -/
theorem chainGraph_downstream {r a b c : Int} {n1 n2 n3 n4 : String}
    {m1 m2 m3 m4 : Option NodeMetricsRec}
    (hra : r ≠ a) (hrb : r ≠ b) (hrc : r ≠ c)
    (hab : a ≠ b) (hac : a ≠ c) (hbc : b ≠ c) :
    getDownstreamNodes a (chainGraph r a b c n1 n2 n3 n4 m1 m2 m3 m4)
      = insert c (insert b (insert a ∅)) := by
  obtain ⟨ggr, gga, ggb, ggc⟩ :=
    @chainGraph_get r a b c n1 n2 n3 n4 m1 m2 m3 m4 hra hrb hrc hab hac hbc
  unfold getDownstreamNodes
  rw [show 1 + (chainGraph r a b c n1 n2 n3 n4 m1 m2 m3 m4).length
      + ((chainGraph r a b c n1 n2 n3 n4 m1 m2 m3 m4).map
          (fun n => n.children.length)).sum = 7 + 1 by simp [chainGraph]]
  rw [downstreamGo_found _ _ _ _ _ _ (by simp) gga]
  simp only [List.nil_append]
  rw [show (7 : ℕ) = 6 + 1 from rfl,
    downstreamGo_found _ _ _ _ _ _ (by simp [hab.symm]) ggb]
  simp only [List.nil_append]
  rw [show (6 : ℕ) = 5 + 1 from rfl,
    downstreamGo_found _ _ _ _ _ _ (by simp [hac.symm, hbc.symm]) ggc]
  simp only [List.nil_append, List.append_nil]
  rw [show (5 : ℕ) = 4 + 1 from rfl, downstreamGo_nil]

/-- C6: in every 4-level chain `root → A → B → C` (arbitrary distinct ids,
names and metrics), a query parsing to `+node=C` (ancestor selector)
matches exactly `{root, A, B, C}` via the cached parent map, and a query
parsing to `node=A+` (descendant selector) matches exactly `{A, B, C}`
via the breadth-first walk. -/
theorem c6_chain_lineage (r a b c : Int) (n1 n2 n3 n4 : String)
    (m1 m2 m3 m4 : Option NodeMetricsRec) (q1 q2 : String)
    (hra : r ≠ a) (hrb : r ≠ b) (hrc : r ≠ c)
    (hab : a ≠ b) (hac : a ≠ c) (hbc : b ≠ c)
    (hq1 : parseFilterQuery q1 = ⟨[⟨[⟨c, true, false⟩], [], []⟩], false⟩)
    (hq2 : parseFilterQuery q2 = ⟨[⟨[⟨a, false, true⟩], [], []⟩], false⟩) :
    applyFilter (chainGraph r a b c n1 n2 n3 n4 m1 m2 m3 m4) r q1
      = some {r, a, b, c}
  ∧ applyFilter (chainGraph r a b c n1 n2 n3 n4 m1 m2 m3 m4) r q2
      = some {a, b, c} := by
  obtain ⟨ggr, gga, ggb, ggc⟩ :=
    @chainGraph_get r a b c n1 n2 n3 n4 m1 m2 m3 m4 hra hrb hrc hab hac hbc
  have hpm :=
    @chainGraph_parentMap r a b c n1 n2 n3 n4 m1 m2 m3 m4 hra hrb hrc hab hac hbc
  constructor
  · have hdef : applyFilter (chainGraph r a b c n1 n2 n3 n4 m1 m2 m3 m4) r q1 =
        if (parseFilterQuery q1).orGroups.isEmpty then none
        else some (computeMatching (chainGraph r a b c n1 n2 n3 n4 m1 m2 m3 m4)
          (buildParentMap (chainGraph r a b c n1 n2 n3 n4 m1 m2 m3 m4) r)
          (parseFilterQuery q1).orGroups) := rfl
    rw [hdef, hq1, hpm]
    simp only [List.isEmpty_cons, Bool.false_eq_true, if_false]
    simp only [computeMatching, groupFold, List.foldl_cons, List.foldl_nil]
    simp only [getNodesForSelector, ggc, Option.isNone_some, Bool.false_eq_true,
      if_false, if_true]
    rw [chainGraph_upstream hra hrb hrc hab hac hbc]
    simp only [Finset.union_empty]
    congr 1
    ext x
    simp only [Finset.mem_union, Finset.mem_insert, Finset.mem_singleton]
    tauto
  · have hdef : applyFilter (chainGraph r a b c n1 n2 n3 n4 m1 m2 m3 m4) r q2 =
        if (parseFilterQuery q2).orGroups.isEmpty then none
        else some (computeMatching (chainGraph r a b c n1 n2 n3 n4 m1 m2 m3 m4)
          (buildParentMap (chainGraph r a b c n1 n2 n3 n4 m1 m2 m3 m4) r)
          (parseFilterQuery q2).orGroups) := rfl
    rw [hdef, hq2, hpm]
    simp only [List.isEmpty_cons, Bool.false_eq_true, if_false]
    simp only [computeMatching, groupFold, List.foldl_cons, List.foldl_nil]
    simp only [getNodesForSelector, gga, Option.isNone_some, Bool.false_eq_true,
      if_false, if_true]
    rw [chainGraph_downstream hra hrb hrc hab hac hbc]
    simp only [Finset.union_empty]
    congr 1
    ext x
    simp only [Finset.mem_union, Finset.mem_insert, Finset.mem_singleton,
      Finset.not_mem_empty]
    tauto

/-- C6 witness: the concrete chain 0 → 1 → 2 → 3 with queries `"+node=3"`
and `"node=1+"`. -/
theorem c6_chain_lineage_witness :
    applyFilter (chainGraph 0 1 2 3 "ROOT" "A" "B" "C" none none none none) 0 "+node=3"
      = some {0, 1, 2, 3}
  ∧ applyFilter (chainGraph 0 1 2 3 "ROOT" "A" "B" "C" none none none none) 0 "node=1+"
      = some {1, 2, 3} :=
  c6_chain_lineage 0 1 2 3 "ROOT" "A" "B" "C" none none none none "+node=3" "node=1+"
    (by decide) (by decide) (by decide) (by decide) (by decide) (by decide)
    (by decide) (by decide)

/-! ### C8: tree layout invariants -/

/-- Every subtree is at least one node wide. -/
theorem calcSubtreeWidth_ge (t : PTree) : NODE_WIDTH ≤ calcSubtreeWidth t := by
  cases t with
  | node i cs =>
    cases cs with
    | nil => simp [calcSubtreeWidth]
    | cons c cs => simp [calcSubtreeWidth, le_max_iff]

/-- Children width is non-negative. -/
theorem childrenWidth_nonneg (cs : List PTree) : 0 ≤ childrenWidth cs := by
  induction cs with
  | nil => simp [childrenWidth]
  | cons t ts ih =>
    cases ts with
    | nil =>
        have := calcSubtreeWidth_ge t
        simp only [childrenWidth]
        simp [NODE_WIDTH] at this
        linarith
    | cons t2 ts2 =>
        have h1 := calcSubtreeWidth_ge t
        simp only [childrenWidth] at ih ⊢
        simp [NODE_WIDTH] at h1
        simp [HORIZONTAL_SPACING]
        linarith

/-- One child's width never exceeds the whole children width. -/
theorem calcSubtreeWidth_le_childrenWidth (t : PTree) (ts : List PTree) :
    calcSubtreeWidth t ≤ childrenWidth (t :: ts) := by
  cases ts with
  | nil => simp [childrenWidth]
  | cons t2 ts2 =>
      have h := childrenWidth_nonneg (t2 :: ts2)
      simp only [childrenWidth]
      simp [HORIZONTAL_SPACING]
      linarith

/-- Non-empty children lists reach up to the node's subtree width. -/
theorem childrenWidth_le_calc (i : Int) (c : PTree) (cs : List PTree) :
    childrenWidth (c :: cs) ≤ calcSubtreeWidth (.node i (c :: cs)) := by
  simp [calcSubtreeWidth, le_max_iff]

mutual

/-- The ids laid out by `assignPositions` are exactly the subtree's ids. -/
theorem assignPositions_ids : ∀ (t : PTree) (x y : ℚ),
    (assignPositions t x y).map Prod.fst = treeIds t
  | .node i cs, x, y => by
      simp only [assignPositions, treeIds, List.map_cons]
      rw [assignChildren_ids cs]

/-- The ids laid out by `assignChildren` are exactly the forest's ids. -/
theorem assignChildren_ids : ∀ (cs : List PTree) (x y : ℚ),
    (assignChildren cs x y).map Prod.fst = forestIds cs
  | [], _, _ => rfl
  | t :: ts, x, y => by
      simp only [assignChildren, forestIds, List.map_append]
      rw [assignPositions_ids t, assignChildren_ids ts]

end

mutual

/-- Every entry laid out for a subtree lies within the horizontal strip
`[x, x + width]` reserved for it (with a full node box fitting). -/
theorem assignPositions_bounds : ∀ (t : PTree) (x y : ℚ) (e : Int × ℚ × ℚ),
    e ∈ assignPositions t x y →
    x ≤ e.2.1 ∧ e.2.1 + NODE_WIDTH ≤ x + calcSubtreeWidth t
  | .node i cs, x, y, e, he => by
      have hW := calcSubtreeWidth_ge (.node i cs)
      rcases List.mem_cons.mp he with rfl | he2
      · constructor
        · simp only
          linarith
        · simp only
          linarith
      · cases cs with
        | nil => simp [assignChildren] at he2
        | cons c cs2 =>
            have hb := assignChildren_bounds (c :: cs2) x
              (y + NODE_HEIGHT + VERTICAL_SPACING) e he2
            have hcb := childrenWidth_le_calc i c cs2
            exact ⟨hb.1, by linarith [hb.2]⟩

/-- Every entry laid out for a forest lies within `[x, x + children
width]`. -/
theorem assignChildren_bounds : ∀ (cs : List PTree) (x y : ℚ) (e : Int × ℚ × ℚ),
    e ∈ assignChildren cs x y →
    x ≤ e.2.1 ∧ e.2.1 + NODE_WIDTH ≤ x + childrenWidth cs
  | [], x, y, e, he => by simp [assignChildren] at he
  | t :: ts, x, y, e, he => by
      rcases List.mem_append.mp he with h1 | h2
      · have hb := assignPositions_bounds t x y e h1
        have hle := calcSubtreeWidth_le_childrenWidth t ts
        exact ⟨hb.1, by linarith [hb.2]⟩
      · cases ts with
        | nil => simp [assignChildren] at h2
        | cons t2 ts2 =>
            have hb := assignChildren_bounds (t2 :: ts2)
              (x + calcSubtreeWidth t + HORIZONTAL_SPACING) y e h2
            have hW := calcSubtreeWidth_ge t
            constructor
            · have : (0 : ℚ) < NODE_WIDTH := by norm_num [NODE_WIDTH]
              have : (0 : ℚ) ≤ HORIZONTAL_SPACING := by norm_num [HORIZONTAL_SPACING]
              linarith [hb.1]
            · simp only [childrenWidth]
              linarith [hb.2]

end

/-- The root entry of a subtree's layout block. -/
theorem assignPositions_root (t : PTree) (x y : ℚ) :
    (t.rootId, x + (calcSubtreeWidth t - NODE_WIDTH) / 2, y) ∈ assignPositions t x y := by
  cases t with
  | node i cs => simp [assignPositions, PTree.rootId]

/-- Every child owns a sub-strip of the forest block in which its whole
layout block is contained, starting no earlier than the forest base. -/
theorem assignChildren_sub (cs : List PTree) (c : PTree) :
    ∀ (x y : ℚ), c ∈ cs → ∃ xc, x ≤ xc ∧
      ∀ e, e ∈ assignPositions c xc y → e ∈ assignChildren cs x y := by
  induction cs with
  | nil => intro x y h; simp at h
  | cons t ts ih =>
      intro x y hc
      rcases List.mem_cons.mp hc with rfl | hc2
      · exact ⟨x, le_refl x, fun e he => List.mem_append.mpr (Or.inl he)⟩
      · obtain ⟨xc, hxc, hsub⟩ := ih (x + calcSubtreeWidth t + HORIZONTAL_SPACING) y hc2
        have hW := calcSubtreeWidth_ge t
        refine ⟨xc, ?_, fun e he => List.mem_append.mpr (Or.inr (hsub e he))⟩
        have h1 : (0 : ℚ) < NODE_WIDTH := by norm_num [NODE_WIDTH]
        have h2 : (0 : ℚ) ≤ HORIZONTAL_SPACING := by norm_num [HORIZONTAL_SPACING]
        linarith

/-- Every subtree occurrence owns a base point from which its whole layout
block embeds into the full layout. -/
theorem subtree_block {t p : PTree} (hp : IsSubtree t p) :
    ∀ (x y : ℚ), ∃ x' y', ∀ e, e ∈ assignPositions p x' y' → e ∈ assignPositions t x y := by
  induction hp with
  | refl t => exact fun x y => ⟨x, y, fun e he => he⟩
  | step hc hsub ih =>
      intro x y
      rename_i t c s
      cases t with
      | node i cs =>
          simp only [PTree.childTrees] at hc
          obtain ⟨xc, _, hcont⟩ := assignChildren_sub cs c
            x (y + NODE_HEIGHT + VERTICAL_SPACING) hc
          obtain ⟨x2, y2, hcont2⟩ := ih xc (y + NODE_HEIGHT + VERTICAL_SPACING)
          exact ⟨x2, y2, fun e he =>
            List.mem_cons.mpr (Or.inr (hcont e (hcont2 e he)))⟩

/-- Sibling blocks are laid out left to right with a spacing gap: every
earlier sibling's root box ends strictly before every later sibling's root
box begins. -/
theorem assignChildren_pairwise (cs : List PTree) :
    ∀ (x y : ℚ), List.Pairwise (fun c1 c2 => ∃ x1 x2 : ℚ,
      (c1.rootId, x1 + (calcSubtreeWidth c1 - NODE_WIDTH) / 2, y) ∈ assignChildren cs x y
      ∧ (c2.rootId, x2 + (calcSubtreeWidth c2 - NODE_WIDTH) / 2, y) ∈ assignChildren cs x y
      ∧ x1 + calcSubtreeWidth c1 + HORIZONTAL_SPACING ≤ x2) cs := by
  induction cs with
  | nil => intro x y; exact List.Pairwise.nil
  | cons t ts ih =>
      intro x y
      refine List.Pairwise.cons ?_ ((ih (x + calcSubtreeWidth t + HORIZONTAL_SPACING) y).imp ?_)
      · intro c2 hc2
        obtain ⟨xc, hxc, hcont⟩ := assignChildren_sub ts c2
          (x + calcSubtreeWidth t + HORIZONTAL_SPACING) y hc2
        refine ⟨x, xc, ?_, ?_, hxc⟩
        · exact List.mem_append.mpr (Or.inl (assignPositions_root t x y))
        · exact List.mem_append.mpr (Or.inr (hcont _ (assignPositions_root c2 xc y)))
      · intro c1 c2 hr
        obtain ⟨x1, x2, h1, h2, hle⟩ := hr
        exact ⟨x1, x2, List.mem_append.mpr (Or.inr h1),
          List.mem_append.mpr (Or.inr h2), hle⟩

/-- With distinct ids, the position lookup returns the entry's value. -/
theorem posOf_of_mem {l : List (Int × ℚ × ℚ)} {id : Int} {q : ℚ × ℚ}
    (hnd : (l.map Prod.fst).Nodup) (hm : (id, q) ∈ l) : posOf l id = some q := by
  induction l with
  | nil => simp at hm
  | cons e rest ih =>
      rw [List.map_cons, List.nodup_cons] at hnd
      rcases List.mem_cons.mp hm with rfl | hm2
      · simp [posOf, List.find?]
      · have hne : e.1 ≠ id := by
          intro he
          exact hnd.1 (he ▸ (List.mem_map.mpr ⟨(id, q), hm2, rfl⟩))
        have := ih hnd.2 hm2
        simp only [posOf, List.find?] at this ⊢
        have hbe : (e.1 == id) = false := by simp [hne]
        rw [hbe]
        exact this

/-- Ids present in a subtree have an entry in its layout block. -/
theorem mem_of_treeIds {p : PTree} {id : Int} (h : id ∈ treeIds p) (x y : ℚ) :
    ∃ q, (id, q) ∈ assignPositions p x y := by
  have hids := assignPositions_ids p x y
  rw [← hids] at h
  obtain ⟨e, he, hfst⟩ := List.mem_map.mp h
  exact ⟨e.2, by rwa [show (id, e.2) = e by rw [← hfst]]⟩

/-- C8: for every tree-shaped graph (distinct node ids) and every node of
the tree, (a) the horizontal spans (one fixed node width each) of any two
children of that node do not overlap — each earlier sibling's box ends
strictly left of each later sibling's box — and (b) the node's horizontal
center lies within the horizontal strip its own subtree occupies: there is
a base `x0` with every subtree node's box inside
`[x0, x0 + calcSubtreeWidth p]` and the center `x + NODE_WIDTH / 2`
inside the same strip. -/
theorem c8_layout (t : PTree) (hnd : (treeIds t).Nodup)
    (p : PTree) (hp : IsSubtree t p) :
    List.Pairwise (fun c1 c2 =>
      ∀ x1 y1 x2 y2 : ℚ, posOf (calculateTreeLayout t) c1.rootId = some (x1, y1) →
        posOf (calculateTreeLayout t) c2.rootId = some (x2, y2) →
        x1 + NODE_WIDTH < x2) p.childTrees
  ∧ (∀ xp yp : ℚ, posOf (calculateTreeLayout t) p.rootId = some (xp, yp) →
      ∃ x0 : ℚ, (∀ id q, id ∈ treeIds p → posOf (calculateTreeLayout t) id = some q →
          x0 ≤ q.1 ∧ q.1 + NODE_WIDTH ≤ x0 + calcSubtreeWidth p)
        ∧ x0 ≤ xp + NODE_WIDTH / 2 ∧ xp + NODE_WIDTH / 2 ≤ x0 + calcSubtreeWidth p) := by
  have hndl : ((calculateTreeLayout t).map Prod.fst).Nodup := by
    unfold calculateTreeLayout
    rw [assignPositions_ids]
    exact hnd
  obtain ⟨x', y', hembed⟩ := subtree_block hp 0 0
  have hroot : (p.rootId, x' + (calcSubtreeWidth p - NODE_WIDTH) / 2, y')
      ∈ calculateTreeLayout t := hembed _ (assignPositions_root p x' y')
  have hrootPos : posOf (calculateTreeLayout t) p.rootId
      = some (x' + (calcSubtreeWidth p - NODE_WIDTH) / 2, y') :=
    posOf_of_mem hndl hroot
  constructor
  · cases p with
    | node i cs =>
        have hpw := assignChildren_pairwise cs x' (y' + NODE_HEIGHT + VERTICAL_SPACING)
        simp only [PTree.childTrees]
        refine hpw.imp ?_
        intro c1 c2 hr
        obtain ⟨x1, x2, h1, h2, hle⟩ := hr
        have hm1 : (c1.rootId, x1 + (calcSubtreeWidth c1 - NODE_WIDTH) / 2,
            y' + NODE_HEIGHT + VERTICAL_SPACING) ∈ calculateTreeLayout t :=
          hembed _ (List.mem_cons.mpr (Or.inr h1))
        have hm2 : (c2.rootId, x2 + (calcSubtreeWidth c2 - NODE_WIDTH) / 2,
            y' + NODE_HEIGHT + VERTICAL_SPACING) ∈ calculateTreeLayout t :=
          hembed _ (List.mem_cons.mpr (Or.inr h2))
        intro a1 b1 a2 b2 hpos1 hpos2
        have he1 := posOf_of_mem hndl hm1
        have he2 := posOf_of_mem hndl hm2
        rw [hpos1] at he1
        rw [hpos2] at he2
        have ha1 : a1 = x1 + (calcSubtreeWidth c1 - NODE_WIDTH) / 2 := by
          simpa using congrArg (fun o => (o.getD (0, 0)).1) he1
        have ha2 : a2 = x2 + (calcSubtreeWidth c2 - NODE_WIDTH) / 2 := by
          simpa using congrArg (fun o => (o.getD (0, 0)).1) he2
        have hW1 := calcSubtreeWidth_ge c1
        have hsp : (0 : ℚ) < HORIZONTAL_SPACING := by norm_num [HORIZONTAL_SPACING]
        have hW2 := calcSubtreeWidth_ge c2
        have hNW : (0 : ℚ) < NODE_WIDTH := by norm_num [NODE_WIDTH]
        rw [ha1, ha2]
        nlinarith
  · intro xp yp hpos
    rw [hpos] at hrootPos
    have hxp : xp = x' + (calcSubtreeWidth p - NODE_WIDTH) / 2 := by
      simpa using congrArg (fun o => (o.getD (0, 0)).1) hrootPos
    refine ⟨x', ?_, ?_, ?_⟩
    · intro id q hid hq
      obtain ⟨q', hq'⟩ := mem_of_treeIds hid x' y'
      have hq'pos := posOf_of_mem hndl (hembed _ hq')
      rw [hq] at hq'pos
      have hqq : q = q' := by
        simpa using congrArg (fun o => o.getD (0, 0)) hq'pos
      have hb := assignPositions_bounds p x' y' (id, q') hq'
      rw [hqq]
      exact hb
    · have hW := calcSubtreeWidth_ge p
      have hNW : (0 : ℚ) < NODE_WIDTH := by norm_num [NODE_WIDTH]
      rw [hxp]
      linarith
    · have hW := calcSubtreeWidth_ge p
      have hNW : (0 : ℚ) < NODE_WIDTH := by norm_num [NODE_WIDTH]
      rw [hxp]
      linarith

/-- C8 witness: a three-node tree (root with two leaves); the two leaves'
spans `[0, 160]` and `[200, 360]` are disjoint. -/
theorem c8_layout_witness :
    posOf (calculateTreeLayout (.node 0 [.node 1 [], .node 2 []])) 1 = some (0, 145)
  ∧ posOf (calculateTreeLayout (.node 0 [.node 1 [], .node 2 []])) 2 = some (200, 145)
  ∧ (0 : ℚ) + NODE_WIDTH < 200 := by
  refine ⟨by decide, by decide, ?_⟩
  have h := (c8_layout (.node 0 [.node 1 [], .node 2 []]) (by decide)
    (.node 0 [.node 1 [], .node 2 []]) (.refl _)).1
  have h12 := (List.pairwise_cons.mp h).1 (.node 2 []) (List.mem_cons_self _ _)
  exact h12 0 145 200 145 (by decide) (by decide)


end Northstar
